import Mathlib

/-!
prisma-client-go: engine acquisition and engine process control.

A shallow embedding of `binaries/binaries.go`, `engine/lifecycle.go` and
`engine/introspection/me.go`.

* Go strings are Lean strings; every string function is defined on the
  character list so that it evaluates on closed inputs.
* Package-level variables (`QueryEngineVersion`, `queryEngineURL`, ...) are the
  fields of `Config`; `shipped` holds the values the source initialises them to.
* The package `binaries/platform` is not part of the embedded sources: what it
  returns is the structure `Platform`, a parameter of every function using it.
* The filesystem is a finite map from paths to file contents, the network and
  the faults of the operating system are an oracle `OS`, and every function
  with effects returns its result together with the new filesystem and the
  list of effects it performed, in program order.
* `path/filepath` is modelled as on a POSIX host (separator `/`).
-/

namespace PrismaClientGo

/-! ## Strings -/

/-- Go `strings.HasPrefix`, on character lists. -/
def hasPrefixChars : List Char → List Char → Bool
  | _, [] => true
  | [], _ :: _ => false
  | c :: s, d :: p => c == d && hasPrefixChars s p

/-- Go `strings.Contains`, on character lists. -/
def containsChars : List Char → List Char → Bool
  | [], sub => sub.isEmpty
  | c :: s, sub => hasPrefixChars (c :: s) sub || containsChars s sub

/-- Go `strings.Contains`. -/
def stringsContains (s substr : String) : Bool :=
  containsChars s.data substr.data

/-- The operand list of the `%!(EXTRA ...)` diagnostic of `fmt`. -/
def extraOperands : List String → List Char
  | [] => []
  | [a] => "string=".data ++ a.data
  | a :: b :: rest => "string=".data ++ a.data ++ ", ".data ++ extraOperands (b :: rest)

/-- What `fmt.Sprintf` appends when operands are left over. -/
def sprintfTail (args : List String) : List Char :=
  if args.isEmpty then [] else "%!(EXTRA ".data ++ extraOperands args ++ [')']

/-- Go `fmt.Sprintf` with string operands, on character lists, for formats whose
only verbs are `%s`, `%v` and `%%`: `%s` and `%v` print the next operand, `%%`
prints a percent sign, a missing operand prints `%!s(MISSING)`, operands left
over print `%!(EXTRA string=...)`. A format with another verb, a flag or a
width (`%T`, `%q`, `%x`, `%5s`) is outside this model: the value computed for it
is not the one of `fmt`, and every statement about a configured template is
made for templates with the verb `%s` only. All formats written in the sources
use `%s` only. -/
def sprintfChars : List Char → List String → List Char
  | [], args => sprintfTail args
  | [c], args =>
    if c = '%' then "%!(NOVERB)".data ++ sprintfTail args else c :: sprintfTail args
  | c :: v :: t, args =>
    if c = '%' then
      if v = '%' then '%' :: sprintfChars t args
      else match args with
        | [] => "%!".data ++ v :: "(MISSING)".data ++ sprintfChars t []
        | a :: rest =>
          if v = 's' ∨ v = 'v' then a.data ++ sprintfChars t rest
          else "%!".data ++ v :: "(string=".data ++ a.data ++ ')' :: sprintfChars t rest
    else c :: sprintfChars (v :: t) args

/-- Go `fmt.Sprintf` with string operands. -/
def Sprintf (format : String) (args : List String) : String :=
  ⟨sprintfChars format.data args⟩

/-! ## Package-level configuration of `binaries` -/

/-- The package-level variables of `binaries.go`. -/
structure Config where
  PrismaVersion : String
  QueryEngineVersion : String
  SchemaEngineVersion : String
  PrismaURL : String
  queryEngineURL : String
  scehmaEngineURL : String

/-- The values the source initialises the package-level variables to. -/
def shipped : Config :=
  Config.mk
    "3.13.0"
    "58b76d24c10d06ee3aba2c8f1e5cbe75db073d3c"
    "58b76d24c10d06ee3aba2c8f1e5cbe75db073d3c"
    "https://prisma-photongo.s3-eu-west-1.amazonaws.com/%s-%s-%s-x64.gz"
    "https://binaries.prisma.sh/all_commits/%s/%s/%s.gz"
    "https://prisma-bin.fireboom.io/%s/%s/%s.gz"

/-- The constant `QueryEngineName`. -/
def QueryEngineName : String := "query-engine"

/-- The constant `SchemaEngineName`. -/
def SchemaEngineName : String := "schema-engine"

/-- The type `Engine`. -/
structure Engine where
  Name : String
  Env : String
  deriving DecidableEq

/-- The variable `Engines`. -/
def Engines : List Engine :=
  [Engine.mk QueryEngineName "PRISMA_QUERY_ENGINE_BINARY",
   Engine.mk SchemaEngineName "PRISMA_INTROSPECTION_ENGINE_BINARY"]

/-- The function `init`: `lookupEnv` is `os.LookupEnv`. -/
def init (lookupEnv : String → Option String) (cfg : Config) : Config :=
  let cfg1 :=
    match lookupEnv "PRISMA_CLI_URL" with
    | some prismaURL =>
      Config.mk cfg.PrismaVersion cfg.QueryEngineVersion cfg.SchemaEngineVersion
        prismaURL cfg.queryEngineURL cfg.scehmaEngineURL
    | none => cfg
  match lookupEnv "PRISMA_ENGINE_URL" with
  | some engineURL =>
    Config.mk cfg1.PrismaVersion cfg1.QueryEngineVersion cfg1.SchemaEngineVersion
      cfg1.PrismaURL engineURL cfg1.scehmaEngineURL
  | none => cfg1

/-- The function `getDownLoadUrl`. -/
def getDownLoadUrl (cfg : Config) (engineName binaryName : String) : String :=
  if stringsContains binaryName "debian-openssl-" then
    if engineName = SchemaEngineName then
      Sprintf cfg.scehmaEngineURL [cfg.SchemaEngineVersion, "linux-static-x64", engineName]
    else if engineName = QueryEngineName then
      Sprintf cfg.queryEngineURL [cfg.QueryEngineVersion, "linux-musl", engineName]
    else ""
  else
    if engineName = SchemaEngineName then
      Sprintf cfg.scehmaEngineURL [cfg.SchemaEngineVersion, binaryName, engineName]
    else if engineName = QueryEngineName then
      Sprintf cfg.queryEngineURL [cfg.QueryEngineVersion, binaryName, engineName]
    else ""

/-! ## Paths (`path/filepath` on a POSIX host) -/

/-- Go `filepath.IsAbs` on a POSIX host: the path starts with a slash. -/
def filepathIsAbs (path : String) : Bool :=
  hasPrefixChars path.data ['/']

/-- The elements of a path between its slashes. -/
def splitSlash : List Char → List (List Char)
  | [] => [[]]
  | c :: cs =>
    if c = '/' then [] :: splitSlash cs
    else
      match splitSlash cs with
      | [] => [[c]]
      | h :: t => (c :: h) :: t

/-- Go `strings.Join` with the separator `/`, on character lists. -/
def joinSlash : List (List Char) → List Char
  | [] => []
  | [a] => a
  | a :: b :: t => a ++ '/' :: joinSlash (b :: t)

/-- One step of the loop of Go `filepath.Clean`, on the list of elements written
so far: an empty element and `.` are skipped, `..` removes the last element
written when there is one that is not itself `..`, is dropped at the root, and
is kept otherwise; any other element is appended. -/
def cleanStep (rooted : Bool) (out : List (List Char)) (el : List Char) : List (List Char) :=
  if el = [] ∨ el = ['.'] then out
  else if el = ['.', '.'] then
    match out.getLast? with
    | some l => if l = ['.', '.'] then out ++ [el] else out.dropLast
    | none => if rooted then out else out ++ [el]
  else out ++ [el]

/-- Go `filepath.Clean` on a POSIX host, on character lists. -/
def cleanChars (path : List Char) : List Char :=
  if path = [] then ['.']
  else
    let rooted := hasPrefixChars path ['/']
    let body := joinSlash ((splitSlash path).foldl (cleanStep rooted) [])
    if rooted then '/' :: body
    else if body = [] then ['.'] else body

/-- Go `filepath.Join` on a POSIX host: leading empty elements are skipped, the
rest is joined with slashes and cleaned. -/
def filepathJoin (el : List String) : String :=
  match el.dropWhile (fun e => e = "") with
  | [] => ""
  | rest => ⟨cleanChars (joinSlash (rest.map String.data))⟩

/-- Go `filepath.ToSlash` on a POSIX host: the separator is already a slash. -/
def filepathToSlash (path : String) : String := path

/-- Go `path.Dir`: the path up to its last slash, cleaned. -/
def pathDir (path : String) : String :=
  ⟨cleanChars ((path.data.reverse.dropWhile (fun c => c ≠ '/')).reverse)⟩

/-- What the package `binaries/platform` returns on the running host. -/
structure Platform where
  Name : String
  BinaryPlatformName : String
  CheckForExtension : String → String → String

/-- The function `GetEnginePath`. -/
def GetEnginePath (pf : Platform) (cfg : Config) (dir engine binaryName : String) : String :=
  if engine = SchemaEngineName then
    pf.CheckForExtension binaryName
      (filepathToSlash (filepathJoin
        [dir, cfg.SchemaEngineVersion, Sprintf "prisma-%s-%s" [engine, binaryName]]))
  else if engine = QueryEngineName then
    pf.CheckForExtension binaryName
      (filepathToSlash (filepathJoin
        [dir, cfg.QueryEngineVersion, Sprintf "prisma-%s-%s" [engine, binaryName]]))
  else ""

/-- The function `GetEnginePathWithVersion`. -/
def GetEnginePathWithVersion (pf : Platform) (cfg : Config)
    (dir engine binaryName scehemaEngineVersion : String) : String :=
  if engine = SchemaEngineName then
    pf.CheckForExtension binaryName
      (filepathToSlash (filepathJoin
        [dir, scehemaEngineVersion, Sprintf "prisma-%s-%s" [engine, binaryName]]))
  else if engine = QueryEngineName then
    pf.CheckForExtension binaryName
      (filepathToSlash (filepathJoin
        [dir, cfg.QueryEngineVersion, Sprintf "prisma-%s-%s" [engine, binaryName]]))
  else ""

/-- The function `getEnginePath`. -/
def getEnginePath (dir version binaryName : String) : String :=
  filepathToSlash (filepathJoin [dir, version, binaryName])

/-! ## Errors, the filesystem and the world outside the program -/

/-- Go error values: `errorString` is an error with a message only (`fmt.Errorf`
without `%w`, errors of the standard library), `wrapError` is what `fmt.Errorf`
returns for a format with `%w` (the formatted message and the wrapped error),
`notExist` is the path error of a missing file, the one `os.IsNotExist`
recognises. -/
inductive GoError where
  | errorString (s : String)
  | wrapError (msg : String) (err : GoError)
  | notExist (op path : String)
  deriving DecidableEq

/-- The method `Error`. -/
def GoError.Error : GoError → String
  | GoError.errorString s => s
  | GoError.wrapError msg _ => msg
  | GoError.notExist op path => op ++ " " ++ path ++ ": no such file or directory"

/-- The call `fmt.Errorf(pre + "%w", err)`, `pre` being the format up to the
verb `%w` with its `%s` operands already substituted. -/
def errorfW (pre : String) (err : GoError) : GoError :=
  GoError.wrapError (pre ++ err.Error) err

/-- File contents. -/
abbrev Bytes := List Nat

/-- The filesystem: the regular files and their contents. -/
abbrev FS := String → Option Bytes

/-- The filesystem with the contents of one file replaced. -/
def FS.put (fs : FS) (path : String) (data : Bytes) : FS :=
  fun p => if p = path then some data else fs p

/-- The calls a function makes to the operating system and the network. -/
inductive Effect where
  | stat (path : String)
  | mkdirAll (path : String)
  | httpGet (url : String)
  | create (path : String)
  | chmod (path : String)
  | write (path : String)
  | readFile (path : String)
  | writeFile (path : String)
  deriving DecidableEq

/-- The calls that change the filesystem. -/
def Effect.isWrite : Effect → Bool
  | Effect.mkdirAll _ => true
  | Effect.create _ => true
  | Effect.chmod _ => true
  | Effect.write _ => true
  | Effect.writeFile _ => true
  | _ => false

/-- The calls that reach the network. -/
def Effect.isHttp : Effect → Bool
  | Effect.httpGet _ => true
  | _ => false

/-- What a gzip reader makes of a response body: no valid header, a stream that
decompresses `data` and then fails, or a stream that decompresses to `data`. -/
inductive GzipStream where
  | badHeader (err : GoError)
  | truncated (data : Bytes) (err : GoError)
  | complete (data : Bytes)

/-- An HTTP response: status code, the body read as text, the body read
through a gzip reader. -/
structure Response where
  StatusCode : Nat
  text : String
  gzip : GzipStream

/-- How `os.WriteFile` fails: the file cannot be opened, or the write fails
after the file was truncated and `written` bytes were stored. -/
inductive WriteFault where
  | openFails (err : GoError)
  | writeFails (written : Nat) (err : GoError)

/-- The world outside the program: the answer of the network to a GET of a URL
and, per path, the fault a call of the operating system hits (`none`: the call
succeeds). `write path = some (n, err)`: writing to the open file fails with
`err` once `n` bytes are stored. `stat path = some err`: `os.Stat` of a path
that is no file fails with `err` instead of the not-exist error (a parent that
is a regular file, a directory that may not be searched). -/
structure OS where
  httpGet : String → Except GoError Response
  mkdirAll : String → Option GoError
  create : String → Option GoError
  chmod : String → Option GoError
  write : String → Option (Nat × GoError)
  readFile : String → Option GoError
  writeFile : String → Option WriteFault
  stat : String → Option GoError

/-- The result of a function with effects: its return value, the filesystem it
leaves and the calls it made, in order. -/
structure Run (α : Type) where
  val : α
  fs : FS
  trace : List Effect

/-- Go `os.Stat`, the error only: `nil` when the file is there; for a path that
is no file the error the world gives, the not-exist error unless it gives
another. -/
def osStat (os : OS) (fs : FS) (path : String) : Option GoError :=
  match fs path with
  | some _ => none
  | none => some ((os.stat path).getD (GoError.notExist "stat" path))

/-- Go `os.IsNotExist`. -/
def osIsNotExist : Option GoError → Bool
  | some (GoError.notExist _ _) => true
  | _ => false

/-- Go `os.ReadFile`. -/
def osReadFile (os : OS) (fs : FS) (path : String) : Except GoError Bytes :=
  match os.readFile path with
  | some err => Except.error err
  | none =>
    match fs path with
    | some data => Except.ok data
    | none => Except.error (GoError.notExist "open" path)

/-- Go `os.WriteFile`: the error and the filesystem it leaves. -/
def osWriteFile (os : OS) (fs : FS) (path : String) (data : Bytes) : Option GoError × FS :=
  match os.writeFile path with
  | some (WriteFault.openFails err) => (some err, fs)
  | some (WriteFault.writeFails written err) => (some err, fs.put path (data.take written))
  | none => (none, fs.put path data)

/-- Go `io.Copy` from a gzip reader into the open file `dest`: `data` is what
the reader yields before it ends with `readErr`. -/
def ioCopy (os : OS) (fs : FS) (dest : String) (data : Bytes) (readErr : Option GoError) :
    Option GoError × FS :=
  let old := (fs dest).getD []
  match os.write dest with
  | some (n, err) =>
    if n < data.length then (some err, fs.put dest (old ++ data.take n))
    else (readErr, fs.put dest (old ++ data))
  | none => (readErr, fs.put dest (old ++ data))

/-- The function `copyFile`. -/
def copyFile (os : OS) (fs : FS) (src dst : String) : Run (Option GoError) :=
  match osReadFile os fs src with
  | Except.error err => Run.mk (some (errorfW "readfile: " err)) fs [Effect.readFile src]
  | Except.ok input =>
    match osWriteFile os fs dst input with
    | (some err, fs1) =>
      Run.mk (some (errorfW "writefile: " err)) fs1 [Effect.readFile src, Effect.writeFile dst]
    | (none, fs1) => Run.mk none fs1 [Effect.readFile src, Effect.writeFile dst]

/-- The function `download`. -/
def download (os : OS) (fs : FS) (url dst : String) : Run (Option GoError) :=
  match os.mkdirAll (pathDir dst) with
  | some err =>
    Run.mk (some (errorfW ("could not run MkdirAll on path " ++ dst ++ ": ") err)) fs
      [Effect.mkdirAll (pathDir dst)]
  | none =>
    let dest := dst ++ ".tmp"
    match os.httpGet url with
    | Except.error err =>
      Run.mk (some (errorfW ("could not get " ++ url ++ ": ") err)) fs
        [Effect.mkdirAll (pathDir dst), Effect.httpGet url]
    | Except.ok resp =>
      if resp.StatusCode ≠ 200 then
        Run.mk (some (GoError.errorString
            ("received code " ++ toString resp.StatusCode ++ " from " ++ url ++ ": " ++ resp.text)))
          fs [Effect.mkdirAll (pathDir dst), Effect.httpGet url]
      else
        match os.create dest with
        | some err =>
          Run.mk (some (errorfW ("could not create " ++ dest ++ ": ") err)) fs
            [Effect.mkdirAll (pathDir dst), Effect.httpGet url, Effect.create dest]
        | none =>
          let fs1 := fs.put dest []
          match os.chmod dest with
          | some err =>
            Run.mk (some (errorfW ("could not chmod +x " ++ url ++ ": ") err)) fs1
              [Effect.mkdirAll (pathDir dst), Effect.httpGet url, Effect.create dest,
               Effect.chmod dest]
          | none =>
            match resp.gzip with
            | GzipStream.badHeader err =>
              Run.mk (some (errorfW "could not create gzip reader: " err)) fs1
                [Effect.mkdirAll (pathDir dst), Effect.httpGet url, Effect.create dest,
                 Effect.chmod dest]
            | GzipStream.truncated data err =>
              Run.mk
                (some (errorfW ("could not copy " ++ url ++ ": ")
                  ((ioCopy os fs1 dest data (some err)).1.getD err)))
                (ioCopy os fs1 dest data (some err)).2
                [Effect.mkdirAll (pathDir dst), Effect.httpGet url, Effect.create dest,
                 Effect.chmod dest, Effect.write dest]
            | GzipStream.complete data =>
              match ioCopy os fs1 dest data none with
              | (some err, fs2) =>
                Run.mk (some (errorfW ("could not copy " ++ url ++ ": ") err)) fs2
                  [Effect.mkdirAll (pathDir dst), Effect.httpGet url, Effect.create dest,
                   Effect.chmod dest, Effect.write dest]
              | (none, fs2) =>
                let c := copyFile os fs2 dest dst
                match c.val with
                | some err =>
                  Run.mk (some (errorfW "copy temp file: " err)) c.fs
                    ([Effect.mkdirAll (pathDir dst), Effect.httpGet url, Effect.create dest,
                      Effect.chmod dest, Effect.write dest] ++ c.trace)
                | none =>
                  Run.mk none c.fs
                    ([Effect.mkdirAll (pathDir dst), Effect.httpGet url, Effect.create dest,
                      Effect.chmod dest, Effect.write dest] ++ c.trace)

/-- The function `DownloadEngine`. -/
def DownloadEngine (pf : Platform) (cfg : Config) (os : OS) (fs : FS) (name toDir : String) :
    Run (String × Option GoError) :=
  let binaryName := pf.BinaryPlatformName
  let dst := GetEnginePath pf cfg toDir name binaryName
  let url := pf.CheckForExtension binaryName (getDownLoadUrl cfg name binaryName)
  if !osIsNotExist (osStat os fs dst) then
    Run.mk (dst, none) fs [Effect.stat dst]
  else
    let d := download os fs url dst
    match d.val with
    | some err =>
      Run.mk ("", some (errorfW ("could not download " ++ url ++ " to " ++ dst ++ ": ") err))
        d.fs (Effect.stat dst :: d.trace)
    | none => Run.mk (dst, none) d.fs (Effect.stat dst :: d.trace)

/-- The loop of `FetchNative` over the engines still to fetch. -/
def fetchEngines (pf : Platform) (cfg : Config) (os : OS) (toDir : String) :
    List Engine → FS → Run (Option GoError)
  | [], fs => Run.mk none fs []
  | e :: rest, fs =>
    let r := DownloadEngine pf cfg os fs e.Name toDir
    match r.val.2 with
    | some err => Run.mk (some (errorfW "could not download engines: " err)) r.fs r.trace
    | none =>
      let r2 := fetchEngines pf cfg os toDir rest r.fs
      Run.mk r2.val r2.fs (r.trace ++ r2.trace)

/-- The function `FetchNative`. -/
def FetchNative (pf : Platform) (cfg : Config) (os : OS) (fs : FS) (toDir : String) :
    Run (Option GoError) :=
  if toDir = "" then Run.mk (some (GoError.errorString "toDir must be provided")) fs []
  else if !filepathIsAbs toDir then
    Run.mk (some (GoError.errorString "toDir must be absolute")) fs []
  else fetchEngines pf cfg os toDir Engines fs

/-- The variable `baseDirName`. -/
def baseDirName : String := filepathJoin ["prisma", "binaries"]

/-- The function `GlobalCacheDir`, `cache` being what `os.UserCacheDir` returned
(when that call fails the function panics). -/
def GlobalCacheDir (cfg : Config) (cache : String) : String :=
  filepathToSlash (filepathJoin [cache, baseDirName, "cli", cfg.PrismaVersion])

/-- The method `IntrospectEngine.ensure`: `getenv` is `os.Getenv`, `cache` is
what `os.UserCacheDir` returned. -/
def IntrospectEngine.ensure (pf : Platform) (cfg : Config) (os : OS) (getenv : String → String)
    (cache : String) (fs : FS) : Run (String × Option GoError) :=
  let dir := GlobalCacheDir cfg cache
  let f := FetchNative pf cfg os fs dir
  match f.val with
  | some err => Run.mk ("", some (errorfW "could not fetch binaries: " err)) f.fs f.trace
  | none =>
    let binaryName :=
      if pf.Name = "windows" then Sprintf "%s.exe" [pf.BinaryPlatformName]
      else pf.BinaryPlatformName
    let name := "prisma-introspection-engine-"
    let globalPath :=
      filepathToSlash (filepathJoin [dir, cfg.QueryEngineVersion, name ++ binaryName])
    let prismaQueryEngineBinary := getenv "PRISMA_INTROSPECTION_ENGINE_BINARY"
    if prismaQueryEngineBinary ≠ "" then
      match osStat os f.fs prismaQueryEngineBinary with
      | some _ =>
        Run.mk ("", some (GoError.errorString
            ("PRISMA_INTROSPECTION_ENGINE_BINARY was provided, but no query engine was found at "
              ++ prismaQueryEngineBinary)))
          f.fs (f.trace ++ [Effect.stat prismaQueryEngineBinary])
      | none =>
        if prismaQueryEngineBinary = "" then
          Run.mk ("", some (GoError.errorString "no binary found ")) f.fs
            (f.trace ++ [Effect.stat prismaQueryEngineBinary])
        else
          Run.mk (prismaQueryEngineBinary, none) f.fs
            (f.trace ++ [Effect.stat prismaQueryEngineBinary])
    else
      let file := if (osStat os f.fs globalPath).isNone then globalPath else ""
      if file = "" then
        Run.mk ("", some (GoError.errorString "no binary found ")) f.fs
          (f.trace ++ [Effect.stat globalPath])
      else Run.mk (file, none) f.fs (f.trace ++ [Effect.stat globalPath])

/-! ## The query engine process (`engine/lifecycle.go`) -/

/-- The fields of `QueryEngine` the embedded methods use. -/
structure QueryEngine where
  Schema : String
  url : String
  disconnected : Bool

/-- The outcome of one `GET /status` attempt of the readiness loop: `e.Request`
fails, `json.Unmarshal` fails, or the body parses to a `GQLResponse` whose field
`Errors` is `errors` (`none` is the nil slice). `G` is the type `GQLError`. -/
inductive StatusAttempt (G : Type) where
  | transport (err : GoError)
  | malformed (err : GoError)
  | envelope (errors : Option (List G))

/-- An attempt is clean when the body parsed and carries no errors. -/
def StatusAttempt.isClean {G : Type} : StatusAttempt G → Bool
  | StatusAttempt.envelope none => true
  | _ => false

/-- The variables of the readiness loop when it is left, and the number of
status requests issued. -/
structure Readiness (G : Type) where
  connectErr : Option GoError
  gqlErrors : Option (List G)
  requests : Nat

/-- The loop `for i := 0; i < 100; i++` of `spawn` with `n` iterations left at
index `i`; `request i` is the outcome of the attempt made at index `i`. -/
def readinessLoop {G : Type} (request : Nat → StatusAttempt G) :
    Nat → Nat → Option GoError → Option (List G) → Readiness G
  | 0, i, connectErr, gqlErrors => Readiness.mk connectErr gqlErrors i
  | n + 1, i, connectErr, gqlErrors =>
    match request i with
    | StatusAttempt.transport err => readinessLoop request n (i + 1) (some err) gqlErrors
    | StatusAttempt.malformed err => readinessLoop request n (i + 1) (some err) gqlErrors
    | StatusAttempt.envelope (some errs) =>
      readinessLoop request n (i + 1) connectErr (some errs)
    | StatusAttempt.envelope none => Readiness.mk none none (i + 1)

/-- What `spawn` returns: the engine, the error, the number of status requests. -/
structure SpawnRun where
  engine : QueryEngine
  err : Option GoError
  requests : Nat

/-- The readiness handshake of `spawn`: the loop and the two checks after it.
`render` is the `%+v` rendering of the gql errors. -/
def handshake {G : Type} (render : List G → String) (request : Nat → StatusAttempt G) :
    Option GoError × Nat :=
  let r := readinessLoop request 100 0 none none
  match r.connectErr with
  | some err => (some (errorfW "readiness query error: " err), r.requests)
  | none =>
    match r.gqlErrors with
    | some errs => (some (GoError.errorString ("readiness gql errors: " ++ render errs)), r.requests)
    | none => (none, r.requests)

/-- The method `QueryEngine.spawn`: `getPort` is the result of `getPort()`,
`start` the error of `e.cmd.Start()`. -/
def QueryEngine.spawn {G : Type} (render : List G → String) (e : QueryEngine)
    (getPort : Except GoError String) (start : Option GoError)
    (request : Nat → StatusAttempt G) : SpawnRun :=
  match getPort with
  | Except.error err => SpawnRun.mk e (some (errorfW "get free port: " err)) 0
  | Except.ok port =>
    let e1 := QueryEngine.mk e.Schema ("http://localhost:" ++ port) e.disconnected
    match start with
    | some err => SpawnRun.mk e1 (some (errorfW "start command: " err)) 0
    | none => SpawnRun.mk e1 (handshake render request).1 (handshake render request).2

/-- The steps of `Disconnect` seen from outside. -/
inductive ProcEvent where
  | setDisconnected
  | kill
  | signalInterrupt
  | wait
  deriving DecidableEq

/-- The errors the calls on the engine process return (`none`: success). -/
structure Proc where
  kill : Option GoError
  signal : Option GoError
  wait : Option GoError

/-- What `Disconnect` returns: the engine, the error, the steps taken. -/
structure DisconnectRun where
  engine : QueryEngine
  err : Option GoError
  events : List ProcEvent

/-- The method `QueryEngine.Disconnect`. -/
def QueryEngine.Disconnect (pf : Platform) (proc : Proc) (e : QueryEngine) : DisconnectRun :=
  let e1 := QueryEngine.mk e.Schema e.url true
  if pf.Name = "windows" then
    match proc.kill with
    | some err =>
      DisconnectRun.mk e1 (some (errorfW "kill process: " err))
        [ProcEvent.setDisconnected, ProcEvent.kill]
    | none => DisconnectRun.mk e1 none [ProcEvent.setDisconnected, ProcEvent.kill]
  else
    match proc.signal with
    | some err =>
      DisconnectRun.mk e1 (some (errorfW "send signal: " err))
        [ProcEvent.setDisconnected, ProcEvent.signalInterrupt]
    | none =>
      match proc.wait with
      | some err =>
        if err.Error ≠ "signal: interrupt" then
          DisconnectRun.mk e1 (some (errorfW "wait for process: " err))
            [ProcEvent.setDisconnected, ProcEvent.signalInterrupt, ProcEvent.wait]
        else
          DisconnectRun.mk e1 none
            [ProcEvent.setDisconnected, ProcEvent.signalInterrupt, ProcEvent.wait]
      | none =>
        DisconnectRun.mk e1 none
          [ProcEvent.setDisconnected, ProcEvent.signalInterrupt, ProcEvent.wait]

/-! ## The introspection channel (`engine/introspection/me.go`) -/

/-- Modelled from the spec: the type of `response.Error.Data`, declared outside
the embedded sources; the wire protocol names its field `message`. -/
structure IntrospectErrorData where
  Message : String

/-- Modelled from the spec: the type behind the pointer `response.Error`,
declared outside the embedded sources; the wire protocol names its field
`data`. -/
structure IntrospectError where
  Data : IntrospectErrorData

/-- Modelled from the spec: the type of `response.Result`, declared outside the
embedded sources; the wire protocol names its field `dataModel`. -/
structure IntrospectResult where
  DataModel : String

/-- Modelled from the spec: the type `IntrospectResponse`, declared outside the
embedded sources, with the two fields `Pull` reads: `Result` and the pointer
`Error` (`none` is nil). -/
structure IntrospectResponse where
  Result : IntrospectResult
  Error : Option IntrospectError

/-- What the calls of `Pull` on the engine process return: the errors of
`cmd.StdinPipe`, of `pipe.Write` for the bytes written, of `cmd.StdoutPipe` and
of `cmd.Start` (`none`: success), the result of `json.Marshal` for the request
carrying a schema, the line and the error `reader.ReadString` returns (an
engine killed at the timeout ends the stream: an error), and `json.Unmarshal`
of a line into an `IntrospectResponse`. -/
structure PullOS where
  stdinPipe : Option GoError
  marshal : String → Except GoError String
  write : String → Option GoError
  stdoutPipe : Option GoError
  start : Option GoError
  readString : String × Option GoError
  unmarshal : String → Except GoError IntrospectResponse

/-- The method `IntrospectEngine.Pull`. -/
def IntrospectEngine.Pull (os : PullOS) (schema : String) : String × Option GoError :=
  match os.stdinPipe with
  | some err => ("", some (GoError.errorString ("introspect engine std in pipe " ++ err.Error)))
  | none =>
    match os.marshal schema with
    | Except.error err => ("", some err)
    | Except.ok data =>
      match os.write (data ++ "\n") with
      | some err => ("", some err)
      | none =>
        match os.stdoutPipe with
        | some err => ("", some err)
        | none =>
          match os.start with
          | some err => ("", some err)
          | none =>
            match os.readString with
            | (_, some err2) => ("", some err2)
            | (line, none) =>
              match os.unmarshal line with
              | Except.error err => ("", some err)
              | Except.ok response =>
                match response.Error with
                | some e =>
                  ("", some (GoError.errorString
                    (Sprintf "introspect error: %s" [e.Data.Message])))
                | none => (response.Result.DataModel, none)

/-- The path `ensure` expects the introspection engine at, under the cache
directory `dir`: the value of its variable `globalPath`. -/
def globalPath (pf : Platform) (cfg : Config) (dir : String) : String :=
  filepathToSlash (filepathJoin [dir, cfg.QueryEngineVersion,
    "prisma-introspection-engine-"
      ++ (if pf.Name = "windows" then Sprintf "%s.exe" [pf.BinaryPlatformName]
          else pf.BinaryPlatformName)])

/-- An engine process that starts, takes the request and answers with one line;
a line `ok:<text>` parses to a result with that data model, a line
`err:<text>` to an envelope whose error carries that message, any other line
is not JSON. -/
def answering (line : String) : PullOS :=
  PullOS.mk none (fun schema => Except.ok schema) (fun _ => none) none none (line, none)
    (fun l =>
      if hasPrefixChars l.data "ok:".data then
        Except.ok (IntrospectResponse.mk (IntrospectResult.mk ⟨l.data.drop 3⟩) none)
      else if hasPrefixChars l.data "err:".data then
        Except.ok (IntrospectResponse.mk (IntrospectResult.mk "")
          (some (IntrospectError.mk (IntrospectErrorData.mk ⟨l.data.drop 4⟩))))
      else Except.error (GoError.errorString "invalid character"))

/-! ## Example hosts and worlds -/

/-- A host for the examples: a Debian host, on which no extension is added. -/
def exampleHost : Platform :=
  Platform.mk "linux" "debian-openssl-1.1.x" (fun _ path => path)

/-- A world without network and without faults of the operating system. -/
def offline : OS :=
  OS.mk (fun _ => Except.error (GoError.errorString "dial tcp: connection refused"))
    (fun _ => none) (fun _ => none) (fun _ => none) (fun _ => none) (fun _ => none)
    (fun _ => none) (fun _ => none)

/-- The empty filesystem. -/
def emptyFS : FS := fun _ => none

/-- A Windows host for the examples. -/
def windowsHost : Platform :=
  Platform.mk "windows" "windows" (fun _ path => path ++ ".exe")

/-- The seven calls of a download that runs to its end. -/
def downloadCalls (url dst : String) : List Effect :=
  [Effect.mkdirAll (pathDir dst), Effect.httpGet url, Effect.create (dst ++ ".tmp"),
   Effect.chmod (dst ++ ".tmp"), Effect.write (dst ++ ".tmp"), Effect.readFile (dst ++ ".tmp"),
   Effect.writeFile dst]

/-- A mirror that answers every GET with status 200 and a gzip stream that
decompresses to `payload`; no call of the operating system fails. -/
def mirror (payload : Bytes) : OS :=
  OS.mk (fun _ => Except.ok (Response.mk 200 "" (GzipStream.complete payload)))
    (fun _ => none) (fun _ => none) (fun _ => none) (fun _ => none) (fun _ => none)
    (fun _ => none) (fun _ => none)

/-- A mirror whose bodies are not gzip streams. -/
def corruptMirror : OS :=
  OS.mk (fun _ => Except.ok (Response.mk 200 "<html>"
      (GzipStream.badHeader (GoError.errorString "gzip: invalid header"))))
    (fun _ => none) (fun _ => none) (fun _ => none) (fun _ => none) (fun _ => none)
    (fun _ => none) (fun _ => none)

/-- The mirror of `mirror`, on a disk where the final write fails after one
byte. -/
def fullDisk (payload : Bytes) : OS :=
  OS.mk (fun _ => Except.ok (Response.mk 200 "" (GzipStream.complete payload)))
    (fun _ => none) (fun _ => none) (fun _ => none) (fun _ => none) (fun _ => none)
    (fun path => if path = "/c/engine" then
      some (WriteFault.writeFails 1 (GoError.errorString "no space left on device")) else none)
    (fun _ => none)

/-- The mirror of `mirror` on a host where the version directory of the cache
"/tmp/cache" is a regular file: `os.Stat` of every path below it fails with
"not a directory", an error that is not the not-exist error. -/
def versionIsFile (payload : Bytes) : OS :=
  OS.mk (fun _ => Except.ok (Response.mk 200 "" (GzipStream.complete payload)))
    (fun _ => none) (fun _ => none) (fun _ => none) (fun _ => none) (fun _ => none)
    (fun _ => none)
    (fun path =>
      if hasPrefixChars path.data "/tmp/cache/58b76d24c10d06ee3aba2c8f1e5cbe75db073d3c/".data then
        some (GoError.errorString ("stat " ++ path ++ ": not a directory"))
      else none)

/-- An environment that points `PRISMA_ENGINE_URL` at a mirror laid out by
platform. -/
def debianMirrorEnv : String → Option String :=
  fun key =>
    if key = "PRISMA_ENGINE_URL" then some "http://m/debian-openssl-1.1.x/%s/%s/%s.gz" else none

/-- A filesystem with one file. -/
def oneFile (path : String) (data : Bytes) : FS :=
  fun p => if p = path then some data else none

/-- The cache path `DownloadEngine` computes for an engine on this host. -/
def enginePath (pf : Platform) (cfg : Config) (dir : String) (e : Engine) : String :=
  GetEnginePath pf cfg dir e.Name pf.BinaryPlatformName

/-- The URL `DownloadEngine` computes for an engine on this host. -/
def engineUrl (pf : Platform) (cfg : Config) (e : Engine) : String :=
  pf.CheckForExtension pf.BinaryPlatformName
    (getDownLoadUrl cfg e.Name pf.BinaryPlatformName)

/-- The environment in which only the override of the introspection engine is
set. -/
def overrideEnv (path : String) : String → String :=
  fun key => if key = "PRISMA_INTROSPECTION_ENGINE_BINARY" then path else ""

/-- A path element that `filepath.Clean` keeps as it is: not empty, without a
slash, and neither `.` nor `..`. -/
def properElem (x : List Char) : Prop :=
  x ≠ [] ∧ '/' ∉ x ∧ x ≠ ['.'] ∧ x ≠ ['.', '.']

/-- What `filepath.Join` writes before the last two elements of a path, given
the first element `dir`: nothing for an empty `dir`, else the cleaned `dir`
followed by a slash (the root slash alone when `dir` cleans to the root). -/
def joinLead (dir : String) : List Char :=
  if dir = "" then []
  else
    (if hasPrefixChars dir.data ['/'] then ['/'] else [])
    ++ (if (splitSlash dir.data).foldl (cleanStep (hasPrefixChars dir.data ['/'])) [] = [] then []
        else joinSlash ((splitSlash dir.data).foldl
          (cleanStep (hasPrefixChars dir.data ['/'])) []) ++ ['/'])

/-! ## Facts about the string functions -/

theorem hasPrefixChars_iff (s p : List Char) : hasPrefixChars s p = true ↔ p <+: s := by
  induction s generalizing p with
  | nil => cases p <;> simp [hasPrefixChars]
  | cons c s ih =>
    cases p with
    | nil => simp [hasPrefixChars]
    | cons d p =>
      simp only [hasPrefixChars, Bool.and_eq_true, beq_iff_eq, ih, List.cons_prefix_cons]
      constructor
      · rintro ⟨h1, h2⟩
        exact ⟨h1.symm, h2⟩
      · rintro ⟨h1, h2⟩
        exact ⟨h1.symm, h2⟩

theorem containsChars_iff (s sub : List Char) : containsChars s sub = true ↔ sub <:+: s := by
  induction s with
  | nil => cases sub <;> simp [containsChars]
  | cons c s ih =>
    simp only [containsChars, Bool.or_eq_true, hasPrefixChars_iff, ih, List.infix_cons_iff]

theorem containsChars_trans {r p m : List Char} (hp : containsChars p m = true)
    (hr : containsChars r m = false) : containsChars r p = false := by
  cases h : containsChars r p with
  | false => rfl
  | true =>
    have h1 := (containsChars_iff r p).1 h
    have h2 := (containsChars_iff p m).1 hp
    have h3 := (containsChars_iff r m).2 (h2.trans h1)
    rw [hr] at h3
    cases h3

/-! ## FetchNative with a relative directory, and the download URL -/

/-- C1: for every non-empty `toDir` that is not absolute, `FetchNative` returns
the error with the message "toDir must be absolute", makes no call to the
filesystem or the network, and leaves the filesystem as it was. -/
theorem FetchNative_relative_dir (pf : Platform) (cfg : Config) (os : OS) (fs : FS)
    (toDir : String) (hne : toDir ≠ "") (hrel : filepathIsAbs toDir = false) :
    (FetchNative pf cfg os fs toDir).val = some (GoError.errorString "toDir must be absolute")
    ∧ (FetchNative pf cfg os fs toDir).val.map GoError.Error = some "toDir must be absolute"
    ∧ (FetchNative pf cfg os fs toDir).trace = []
    ∧ (FetchNative pf cfg os fs toDir).fs = fs := by
  simp [FetchNative, hne, hrel, GoError.Error]

/-- The test `TestFetch_relativeDir`: the directory "." on a host with an
unreachable network. -/
theorem FetchNative_relative_dir_witness :
    (FetchNative exampleHost shipped offline emptyFS ".").val
      = some (GoError.errorString "toDir must be absolute")
    ∧ (FetchNative exampleHost shipped offline emptyFS ".").trace = [] :=
  have h := FetchNative_relative_dir exampleHost shipped offline emptyFS "."
    (by decide) (by decide)
  ⟨h.1, h.2.2.1⟩

theorem sprintfChars_lit (a : List Char) (v : Char) (t : List Char) (args : List String)
    (ha : '%' ∉ a) :
    sprintfChars (a ++ '%' :: v :: t) args = a ++ sprintfChars ('%' :: v :: t) args := by
  induction a with
  | nil => rfl
  | cons c a ih =>
    have hc : c ≠ '%' := fun e => ha (by simp [e])
    have ha2 : '%' ∉ a := fun e => ha (List.mem_cons_of_mem c e)
    cases a with
    | nil => simp [sprintfChars, hc]
    | cons c2 a2 =>
      have := ih ha2
      simp only [List.cons_append] at this ⊢
      simp only [sprintfChars, hc, if_false, this]

theorem sprintfChars_lit_end (d : List Char) (hd : '%' ∉ d) : sprintfChars d [] = d := by
  induction d with
  | nil => simp [sprintfChars, sprintfTail]
  | cons c d ih =>
    have hc : c ≠ '%' := fun e => hd (by simp [e])
    have hd2 : '%' ∉ d := fun e => hd (List.mem_cons_of_mem c e)
    cases d with
    | nil => simp [sprintfChars, sprintfTail, hc]
    | cons c2 d2 =>
      have := ih hd2
      simp only [sprintfChars, hc, if_false, this]

theorem sprintfChars_s (t : List Char) (x : String) (rest : List String) :
    sprintfChars ('%' :: 's' :: t) (x :: rest) = x.data ++ sprintfChars t rest := by
  simp [sprintfChars]

/-- A format with three verbs `%s` and no other percent sign is filled in with
its three operands, in order. -/
theorem Sprintf_three (a b c d x y z : String)
    (ha : '%' ∉ a.data) (hb : '%' ∉ b.data) (hc : '%' ∉ c.data) (hd : '%' ∉ d.data) :
    Sprintf (a ++ "%s" ++ b ++ "%s" ++ c ++ "%s" ++ d) [x, y, z]
      = a ++ x ++ b ++ y ++ c ++ z ++ d := by
  apply String.ext
  have hfmt : (a ++ "%s" ++ b ++ "%s" ++ c ++ "%s" ++ d).data
      = a.data ++ '%' :: 's' :: (b.data ++ '%' :: 's' :: (c.data ++ '%' :: 's' :: d.data)) := by
    simp
  simp only [Sprintf, hfmt, sprintfChars_lit _ _ _ _ ha, sprintfChars_lit _ _ _ _ hb,
    sprintfChars_lit _ _ _ _ hc, sprintfChars_s, sprintfChars_lit_end _ hd]
  simp

/-- C2, as the claim states it, fails: with `PRISMA_ENGINE_URL` set to a
template that itself contains the platform name, the result for the platform
"debian-openssl-1.1.x" has "linux-musl" filled in and still contains
"debian-openssl-1.1.x". -/
theorem getDownLoadUrl_override_contains_platform :
    stringsContains "debian-openssl-1.1.x" "debian-openssl-" = true
    ∧ getDownLoadUrl (init debianMirrorEnv shipped) QueryEngineName "debian-openssl-1.1.x"
      = "http://m/debian-openssl-1.1.x/58b76d24c10d06ee3aba2c8f1e5cbe75db073d3c/linux-musl/query-engine.gz"
    ∧ stringsContains
        (getDownLoadUrl (init debianMirrorEnv shipped) QueryEngineName "debian-openssl-1.1.x")
        "debian-openssl-1.1.x" = true := by
  decide

/-- C2, amended: for templates of the form a%sb%sc%sd (no other percent sign),
`getDownLoadUrl` is the template of the engine kind filled in with the
configured version, the platform and the engine name, in that order; the
platform filled in is the name it was given unless that name contains
"debian-openssl-", in which case it is "linux-musl" for the query engine and
"linux-static-x64" for the schema engine, so the result is then the same for
every such name. With the shipped templates and versions the result is the
literal URL with version, platform and engine name in place, and a name
containing "debian-openssl-" does not occur in it. -/
theorem getDownLoadUrl_template (cfg : Config) (P a1 b1 c1 d1 a2 b2 c2 d2 : String)
    (hq : cfg.queryEngineURL = a1 ++ "%s" ++ b1 ++ "%s" ++ c1 ++ "%s" ++ d1)
    (hqf : '%' ∉ a1.data ∧ '%' ∉ b1.data ∧ '%' ∉ c1.data ∧ '%' ∉ d1.data)
    (hs : cfg.scehmaEngineURL = a2 ++ "%s" ++ b2 ++ "%s" ++ c2 ++ "%s" ++ d2)
    (hsf : '%' ∉ a2.data ∧ '%' ∉ b2.data ∧ '%' ∉ c2.data ∧ '%' ∉ d2.data) :
    getDownLoadUrl cfg QueryEngineName P
        = a1 ++ cfg.QueryEngineVersion ++ b1
            ++ (if stringsContains P "debian-openssl-" then "linux-musl" else P)
            ++ c1 ++ QueryEngineName ++ d1
    ∧ getDownLoadUrl cfg SchemaEngineName P
        = a2 ++ cfg.SchemaEngineVersion ++ b2
            ++ (if stringsContains P "debian-openssl-" then "linux-static-x64" else P)
            ++ c2 ++ SchemaEngineName ++ d2
    ∧ (stringsContains P "debian-openssl-" = true →
        ∀ P2 : String, stringsContains P2 "debian-openssl-" = true →
          getDownLoadUrl cfg QueryEngineName P = getDownLoadUrl cfg QueryEngineName P2
          ∧ getDownLoadUrl cfg SchemaEngineName P = getDownLoadUrl cfg SchemaEngineName P2)
    ∧ getDownLoadUrl shipped QueryEngineName P
        = "https://binaries.prisma.sh/all_commits/" ++ shipped.QueryEngineVersion ++ "/"
            ++ (if stringsContains P "debian-openssl-" then "linux-musl" else P)
            ++ "/query-engine.gz"
    ∧ getDownLoadUrl shipped SchemaEngineName P
        = "https://prisma-bin.fireboom.io/" ++ shipped.SchemaEngineVersion ++ "/"
            ++ (if stringsContains P "debian-openssl-" then "linux-static-x64" else P)
            ++ "/schema-engine.gz"
    ∧ (stringsContains P "debian-openssl-" = true →
        stringsContains (getDownLoadUrl shipped QueryEngineName P) P = false
        ∧ stringsContains (getDownLoadUrl shipped SchemaEngineName P) P = false) := by
  have hne : QueryEngineName ≠ SchemaEngineName := by decide
  have gq : ∀ X : String, getDownLoadUrl cfg QueryEngineName X
      = a1 ++ cfg.QueryEngineVersion ++ b1
          ++ (if stringsContains X "debian-openssl-" then "linux-musl" else X)
          ++ c1 ++ QueryEngineName ++ d1 := by
    intro X
    unfold getDownLoadUrl
    split <;> simp only [hne, if_false, if_true, hq] <;>
      exact Sprintf_three a1 b1 c1 d1 _ _ _ hqf.1 hqf.2.1 hqf.2.2.1 hqf.2.2.2
  have gs : ∀ X : String, getDownLoadUrl cfg SchemaEngineName X
      = a2 ++ cfg.SchemaEngineVersion ++ b2
          ++ (if stringsContains X "debian-openssl-" then "linux-static-x64" else X)
          ++ c2 ++ SchemaEngineName ++ d2 := by
    intro X
    unfold getDownLoadUrl
    split <;> simp only [if_true, hs] <;>
      exact Sprintf_three a2 b2 c2 d2 _ _ _ hsf.1 hsf.2.1 hsf.2.2.1 hsf.2.2.2
  have hq2 : ∀ c : Config, c = shipped → getDownLoadUrl c QueryEngineName P
        = "https://binaries.prisma.sh/all_commits/" ++ shipped.QueryEngineVersion ++ "/"
            ++ (if stringsContains P "debian-openssl-" then "linux-musl" else P)
            ++ "/query-engine.gz" := by
    intro c hc
    subst hc
    unfold getDownLoadUrl
    split <;> simp [hne] <;> apply String.ext <;>
      simp [Sprintf, sprintfChars, sprintfTail, shipped, QueryEngineName]
  have hs2 : ∀ c : Config, c = shipped → getDownLoadUrl c SchemaEngineName P
        = "https://prisma-bin.fireboom.io/" ++ shipped.SchemaEngineVersion ++ "/"
            ++ (if stringsContains P "debian-openssl-" then "linux-static-x64" else P)
            ++ "/schema-engine.gz" := by
    intro c hc
    subst hc
    unfold getDownLoadUrl
    split <;> simp <;> apply String.ext <;>
      simp [Sprintf, sprintfChars, sprintfTail, shipped, SchemaEngineName]
  refine ⟨gq P, gs P, ?_, hq2 shipped rfl, hs2 shipped rfl, ?_⟩
  · intro hP P2 hP2
    constructor
    · rw [gq P, gq P2, if_pos hP, if_pos hP2]
    · rw [gs P, gs P2, if_pos hP, if_pos hP2]
  · intro hP
    have key : ∀ u : String, stringsContains u "debian-openssl-" = false →
        stringsContains u P = false := fun u hu => containsChars_trans hP hu
    refine ⟨key _ ?_, key _ ?_⟩
    · rw [hq2 shipped rfl, if_pos hP]
      decide
    · rw [hs2 shipped rfl, if_pos hP]
      decide

/-- The shipped templates at the platforms "darwin" and "debian-openssl-3.2.x",
and a mirror template filled in for "darwin". -/
theorem getDownLoadUrl_template_witness :
    getDownLoadUrl
        (Config.mk "3.13.0" "v1" "v2" "" "http://m/%s/%s/%s.gz" "http://n/%s/%s/%s.gz")
        QueryEngineName "darwin"
      = "http://m/" ++ "v1" ++ "/" ++ (if stringsContains "darwin" "debian-openssl-"
          then "linux-musl" else "darwin") ++ "/" ++ QueryEngineName ++ ".gz"
    ∧ stringsContains (getDownLoadUrl shipped SchemaEngineName "debian-openssl-3.2.x")
        "debian-openssl-3.2.x" = false :=
  ⟨(getDownLoadUrl_template
      (Config.mk "3.13.0" "v1" "v2" "" "http://m/%s/%s/%s.gz" "http://n/%s/%s/%s.gz")
      "darwin" "http://m/" "/" "/" ".gz" "http://n/" "/" "/" ".gz"
      (by decide) (by decide) (by decide) (by decide)).1,
   ((getDownLoadUrl_template shipped "debian-openssl-3.2.x"
      "https://binaries.prisma.sh/all_commits/" "/" "/" ".gz"
      "https://prisma-bin.fireboom.io/" "/" "/" ".gz"
      (by decide) (by decide) (by decide) (by decide)).2.2.2.2.2 (by decide)).2⟩

/-- C3: with the shipped versions and templates and no override in the
environment, `getDownLoadUrl` at the platform "debian-openssl-3.2.x" returns
URLs with the version 58b76d24c10d06ee3aba2c8f1e5cbe75db073d3c, not the URLs the
test `TestDownloadURL` expects. -/
theorem getDownLoadUrl_shipped_debian :
    getDownLoadUrl (init (fun _ => none) shipped) "query-engine" "debian-openssl-3.2.x"
      = "https://binaries.prisma.sh/all_commits/58b76d24c10d06ee3aba2c8f1e5cbe75db073d3c/linux-musl/query-engine.gz"
    ∧ getDownLoadUrl (init (fun _ => none) shipped) "query-engine" "debian-openssl-3.2.x"
      ≠ "https://binaries.prisma.sh/all_commits/694eea289a8462c80264df36757e4fdc129b1b32/linux-musl/query-engine.gz"
    ∧ getDownLoadUrl (init (fun _ => none) shipped) "schema-engine" "debian-openssl-3.2.x"
      = "https://prisma-bin.fireboom.io/58b76d24c10d06ee3aba2c8f1e5cbe75db073d3c/linux-static-x64/schema-engine.gz"
    ∧ getDownLoadUrl (init (fun _ => none) shipped) "schema-engine" "debian-openssl-3.2.x"
      ≠ "https://prisma-bin.fireboom.io/b3dba99ab5820f4e6b67e9220b80c89b71c2b5e6/linux-static-x64/schema-engine.gz" := by
  decide

/-! ## The readiness handshake -/

/-- While no attempt is clean the loop runs all its iterations, and it leaves
an error recorded as soon as it ran once or started with one. -/
theorem readinessLoop_unclean {G : Type} (request : Nat → StatusAttempt G) (n : Nat) :
    ∀ (i : Nat) (ce : Option GoError) (ge : Option (List G)),
      (∀ j, j < n → (request (i + j)).isClean = false) →
      (readinessLoop request n i ce ge).requests = i + n
      ∧ ((0 < n ∨ ce ≠ none ∨ ge ≠ none) →
          ((readinessLoop request n i ce ge).connectErr ≠ none
            ∨ (readinessLoop request n i ce ge).gqlErrors ≠ none)) := by
  induction n with
  | zero =>
    intro i ce ge _
    refine ⟨rfl, ?_⟩
    intro h
    rcases h with h | h | h
    · exact absurd h (Nat.lt_irrefl 0)
    · exact Or.inl h
    · exact Or.inr h
  | succ n ih =>
    intro i ce ge hall
    have h0 : (request i).isClean = false := by
      have := hall 0 (Nat.succ_pos n)
      simpa using this
    have hrest : ∀ j, j < n → (request (i + 1 + j)).isClean = false := by
      intro j hj
      have := hall (j + 1) (Nat.succ_lt_succ hj)
      rwa [show i + (j + 1) = i + 1 + j by omega] at this
    cases hreq : request i with
    | transport err =>
      have := ih (i + 1) (some err) ge hrest
      simp only [readinessLoop, hreq]
      exact ⟨by rw [this.1]; omega, fun _ => this.2 (Or.inr (Or.inl (by simp)))⟩
    | malformed err =>
      have := ih (i + 1) (some err) ge hrest
      simp only [readinessLoop, hreq]
      exact ⟨by rw [this.1]; omega, fun _ => this.2 (Or.inr (Or.inl (by simp)))⟩
    | envelope errors =>
      cases errors with
      | none =>
        rw [hreq] at h0
        simp [StatusAttempt.isClean] at h0
      | some errs =>
        have := ih (i + 1) ce (some errs) hrest
        simp only [readinessLoop, hreq]
        exact ⟨by rw [this.1]; omega, fun _ => this.2 (Or.inr (Or.inr (by simp)))⟩

/-- The loop is left at the first clean attempt, with both variables reset. -/
theorem readinessLoop_clean {G : Type} (request : Nat → StatusAttempt G) (n : Nat) :
    ∀ (i k : Nat) (ce : Option GoError) (ge : Option (List G)),
      k < n → (∀ j, j < k → (request (i + j)).isClean = false) →
      (request (i + k)).isClean = true →
      readinessLoop request n i ce ge = Readiness.mk none none (i + k + 1) := by
  induction n with
  | zero =>
    intro i k ce ge hk
    exact absurd hk (Nat.not_lt_zero k)
  | succ n ih =>
    intro i k ce ge hk hbefore hclean
    cases k with
    | zero =>
      cases hreq : request i with
      | transport err => rw [Nat.add_zero, hreq] at hclean; cases hclean
      | malformed err => rw [Nat.add_zero, hreq] at hclean; cases hclean
      | envelope errors =>
        cases errors with
        | some errs => rw [Nat.add_zero, hreq] at hclean; cases hclean
        | none => simp only [readinessLoop, hreq, Nat.add_zero]
    | succ k =>
      have h0 : (request i).isClean = false := by
        have := hbefore 0 (Nat.succ_pos k)
        simpa using this
      have hrest : ∀ j, j < k → (request (i + 1 + j)).isClean = false := by
        intro j hj
        have := hbefore (j + 1) (Nat.succ_lt_succ hj)
        rwa [show i + (j + 1) = i + 1 + j by omega] at this
      have hclean2 : (request (i + 1 + k)).isClean = true := by
        rwa [show i + (k + 1) = i + 1 + k by omega] at hclean
      have hk2 : k < n := Nat.lt_of_succ_lt_succ hk
      have hidx : i + (k + 1) + 1 = i + 1 + k + 1 := by omega
      cases hreq : request i with
      | transport err =>
        simp only [readinessLoop, hreq]
        rw [ih (i + 1) k (some err) ge hk2 hrest hclean2, hidx]
      | malformed err =>
        simp only [readinessLoop, hreq]
        rw [ih (i + 1) k (some err) ge hk2 hrest hclean2, hidx]
      | envelope errors =>
        cases errors with
        | none =>
          rw [hreq] at h0
          simp [StatusAttempt.isClean] at h0
        | some errs =>
          simp only [readinessLoop, hreq]
          rw [ih (i + 1) k ce (some errs) hk2 hrest hclean2, hidx]

/-- The handshake when attempt `k` is the first clean one. -/
theorem handshake_first_clean {G : Type} (render : List G → String)
    (request : Nat → StatusAttempt G) (k : Nat) (hk : k < 100)
    (hbefore : ∀ j, j < k → (request j).isClean = false)
    (hclean : (request k).isClean = true) :
    handshake render request = (none, k + 1) := by
  have h := readinessLoop_clean request 100 0 k none none hk
    (fun j hj => by simpa using hbefore j hj) (by simpa using hclean)
  simp only [handshake, h, Nat.zero_add]

/-- The handshake when none of the hundred attempts is clean. -/
theorem handshake_all_unclean {G : Type} (render : List G → String)
    (request : Nat → StatusAttempt G)
    (hall : ∀ i, i < 100 → (request i).isClean = false) :
    (handshake render request).1 ≠ none ∧ (handshake render request).2 = 100 := by
  have h := readinessLoop_unclean request 100 0 none none
    (fun j hj => by simpa using hall j hj)
  have h2 := h.2 (Or.inl (by decide))
  have h1 : (readinessLoop request 100 0 none none).requests = 100 := by simpa using h.1
  cases hc : (readinessLoop request 100 0 none none).connectErr with
  | some err =>
    simp only [handshake, hc]
    exact ⟨by simp, h1⟩
  | none =>
    cases hg : (readinessLoop request 100 0 none none).gqlErrors with
    | some errs =>
      simp only [handshake, hc, hg]
      exact ⟨by simp, h1⟩
    | none =>
      rw [hc, hg] at h2
      simp at h2

/-- C4: once the port is found and the process started, `spawn` returns no error
if and only if one of the first 100 status attempts is clean; it issues its last
status request at the first clean attempt; when all 100 attempts are unclean it
returns an error after exactly 100 requests. -/
theorem spawn_ready_iff {G : Type} (render : List G → String) (e : QueryEngine)
    (port : String) (request : Nat → StatusAttempt G) :
    ((QueryEngine.spawn render e (Except.ok port) none request).err = none
        ↔ ∃ i, i < 100 ∧ (request i).isClean = true)
    ∧ (∀ k, k < 100 → (request k).isClean = true →
        (∀ j, j < k → (request j).isClean = false) →
        (QueryEngine.spawn render e (Except.ok port) none request).err = none
        ∧ (QueryEngine.spawn render e (Except.ok port) none request).requests = k + 1)
    ∧ ((∀ i, i < 100 → (request i).isClean = false) →
        (QueryEngine.spawn render e (Except.ok port) none request).err ≠ none
        ∧ (QueryEngine.spawn render e (Except.ok port) none request).requests = 100) := by
  have hfirst : ∀ k, k < 100 → (request k).isClean = true →
      (∀ j, j < k → (request j).isClean = false) →
      (QueryEngine.spawn render e (Except.ok port) none request).err = none
      ∧ (QueryEngine.spawn render e (Except.ok port) none request).requests = k + 1 := by
    intro k hk hclean hbefore
    have h := handshake_first_clean render request k hk hbefore hclean
    simp only [QueryEngine.spawn, h, and_self]
  have hnone : (∀ i, i < 100 → (request i).isClean = false) →
      (QueryEngine.spawn render e (Except.ok port) none request).err ≠ none
      ∧ (QueryEngine.spawn render e (Except.ok port) none request).requests = 100 := by
    intro hall
    have h := handshake_all_unclean render request hall
    simpa only [QueryEngine.spawn] using h
  refine ⟨⟨?_, ?_⟩, hfirst, hnone⟩
  · intro hok
    by_contra hno
    have hall : ∀ i, i < 100 → (request i).isClean = false := by
      intro i hi
      cases hc : (request i).isClean with
      | false => rfl
      | true => exact absurd ⟨i, hi, hc⟩ hno
    exact (hnone hall).1 hok
  · intro hex
    have hex2 : ∃ i, i < 100 ∧ (request i).isClean = true := hex
    have hspec := Nat.find_spec hex2
    have hmin : ∀ j, j < Nat.find hex2 → (request j).isClean = false := by
      intro j hj
      have hlt : j < 100 := Nat.lt_trans hj hspec.1
      cases hc : (request j).isClean with
      | false => rfl
      | true => exact absurd ⟨hlt, hc⟩ (Nat.find_min hex2 hj)
    exact (hfirst (Nat.find hex2) hspec.1 hspec.2 hmin).1

/-- An engine and a status endpoint that answers "connection refused" three
times and then a clean envelope: `spawn` succeeds after four requests. -/
theorem spawn_ready_iff_witness :
    (QueryEngine.spawn (fun errs : List String => String.join errs)
        (QueryEngine.mk "" "" false) (Except.ok "4466") none
        (fun i => if i < 3 then StatusAttempt.transport (GoError.errorString "connection refused")
          else StatusAttempt.envelope none)).err = none
    ∧ (QueryEngine.spawn (fun errs : List String => String.join errs)
        (QueryEngine.mk "" "" false) (Except.ok "4466") none
        (fun i => if i < 3 then StatusAttempt.transport (GoError.errorString "connection refused")
          else StatusAttempt.envelope none)).requests = 3 + 1 :=
  (spawn_ready_iff (fun errs : List String => String.join errs)
    (QueryEngine.mk "" "" false) "4466"
    (fun i => if i < 3 then StatusAttempt.transport (GoError.errorString "connection refused")
      else StatusAttempt.envelope none)).2.1 3 (by decide) (by decide) (by decide)

/-- C5: one attempt failing with a transport error followed by 99 attempts that
return gql errors: `spawn` returns the transport error of the first attempt, not
the gql errors the hundredth attempt observed. -/
theorem spawn_stale_connectErr :
    (QueryEngine.spawn (fun errs : List String => String.join errs)
        (QueryEngine.mk "" "" false) (Except.ok "4466") none
        (fun i => if i = 0 then StatusAttempt.transport (GoError.errorString "connection refused")
          else StatusAttempt.envelope (some ["engine not ready"]))).err
      = some (GoError.wrapError "readiness query error: connection refused"
          (GoError.errorString "connection refused"))
    ∧ (QueryEngine.spawn (fun errs : List String => String.join errs)
        (QueryEngine.mk "" "" false) (Except.ok "4466") none
        (fun i => if i = 0 then StatusAttempt.transport (GoError.errorString "connection refused")
          else StatusAttempt.envelope (some ["engine not ready"]))).err
      ≠ some (GoError.errorString "readiness gql errors: engine not ready")
    ∧ (QueryEngine.spawn (fun errs : List String => String.join errs)
        (QueryEngine.mk "" "" false) (Except.ok "4466") none
        (fun i => if i = 0 then StatusAttempt.transport (GoError.errorString "connection refused")
          else StatusAttempt.envelope (some ["engine not ready"]))).requests = 100 := by
  decide

/-! ## Disconnect -/

/-- C10, as the claim states it, fails on Windows: after a kill that succeeds
`Disconnect` returns success without waiting for the process, also when waiting
would report an error that is not the interrupt exit. -/
theorem Disconnect_windows_no_wait :
    (QueryEngine.Disconnect windowsHost
        (Proc.mk none none (some (GoError.errorString "exit status 1")))
        (QueryEngine.mk "" "http://localhost:4466" false)).err = none
    ∧ ProcEvent.wait ∉ (QueryEngine.Disconnect windowsHost
        (Proc.mk none none (some (GoError.errorString "exit status 1")))
        (QueryEngine.mk "" "http://localhost:4466" false)).events
    ∧ (GoError.errorString "exit status 1").Error ≠ "signal: interrupt" := by
  decide

/-- C10, amended: on every platform `Disconnect` sets the disconnected flag
before it signals. On a platform other than Windows it sends the interrupt
signal and, when sending succeeds, waits for the process; it then returns
success exactly when the wait reports no error or the error "signal: interrupt",
and returns any other wait error wrapped. On Windows it kills the process and
does not wait: it returns success exactly when the kill succeeds. -/
theorem Disconnect_contract (pf : Platform) (proc : Proc) (e : QueryEngine) :
    (QueryEngine.Disconnect pf proc e).engine.disconnected = true
    ∧ (∃ rest, (QueryEngine.Disconnect pf proc e).events = ProcEvent.setDisconnected :: rest
        ∧ ProcEvent.setDisconnected ∉ rest)
    ∧ (pf.Name ≠ "windows" → proc.signal = none →
        (QueryEngine.Disconnect pf proc e).events
          = [ProcEvent.setDisconnected, ProcEvent.signalInterrupt, ProcEvent.wait]
        ∧ ((QueryEngine.Disconnect pf proc e).err = none
            ↔ (proc.wait = none ∨ ∃ err, proc.wait = some err ∧ err.Error = "signal: interrupt"))
        ∧ (∀ err, proc.wait = some err → err.Error ≠ "signal: interrupt" →
            (QueryEngine.Disconnect pf proc e).err
              = some (GoError.wrapError ("wait for process: " ++ err.Error) err)))
    ∧ (pf.Name ≠ "windows" → ∀ err, proc.signal = some err →
        (QueryEngine.Disconnect pf proc e).events
          = [ProcEvent.setDisconnected, ProcEvent.signalInterrupt]
        ∧ (QueryEngine.Disconnect pf proc e).err
          = some (GoError.wrapError ("send signal: " ++ err.Error) err))
    ∧ (pf.Name = "windows" →
        (QueryEngine.Disconnect pf proc e).events = [ProcEvent.setDisconnected, ProcEvent.kill]
        ∧ ((QueryEngine.Disconnect pf proc e).err = none ↔ proc.kill = none)) := by
  refine ⟨?_, ?_, ?_, ?_, ?_⟩
  · unfold QueryEngine.Disconnect
    repeat (first | rfl | split)
  · unfold QueryEngine.Disconnect
    repeat (first | exact ⟨_, rfl, by decide⟩ | split)
  · intro hpf hsig
    cases hw : proc.wait with
    | none => simp [QueryEngine.Disconnect, hpf, hsig, hw]
    | some err =>
      by_cases herr : err.Error = "signal: interrupt"
      · simp [QueryEngine.Disconnect, hpf, hsig, hw, herr]
      · simp [QueryEngine.Disconnect, hpf, hsig, hw, herr, errorfW]
  · intro hpf err hsig
    simp [QueryEngine.Disconnect, hpf, hsig, errorfW]
  · intro hpf
    cases hk : proc.kill with
    | none => simp [QueryEngine.Disconnect, hpf, hk]
    | some err => simp [QueryEngine.Disconnect, hpf, hk]

/-- On a Linux host the engine exits on the interrupt signal: `Disconnect`
waits and returns success. -/
theorem Disconnect_contract_witness :
    (QueryEngine.Disconnect exampleHost
        (Proc.mk none none (some (GoError.errorString "signal: interrupt")))
        (QueryEngine.mk "" "http://localhost:4466" false)).events
      = [ProcEvent.setDisconnected, ProcEvent.signalInterrupt, ProcEvent.wait]
    ∧ (QueryEngine.Disconnect exampleHost
        (Proc.mk none none (some (GoError.errorString "signal: interrupt")))
        (QueryEngine.mk "" "http://localhost:4466" false)).err = none :=
  have h := (Disconnect_contract exampleHost
    (Proc.mk none none (some (GoError.errorString "signal: interrupt")))
    (QueryEngine.mk "" "http://localhost:4466" false)).2.2.1 (by decide) rfl
  ⟨h.1, h.2.1.2 (Or.inr ⟨_, rfl, by decide⟩)⟩

/-! ## The downloader -/

theorem String_append_ne_self (s t : String) (ht : t ≠ "") : s ++ t ≠ s := by
  intro h
  have h2 := congrArg String.length h
  rw [String.length_append] at h2
  have h3 : t.length = 0 := by omega
  apply ht
  apply String.ext
  have h4 : t.data.length = 0 := h3
  exact List.length_eq_zero.1 h4

theorem tmp_ne (dst : String) : dst ++ ".tmp" ≠ dst :=
  String_append_ne_self dst ".tmp" (by decide)

theorem ioCopy_spec (os : OS) (fs : FS) (dest : String) (data : Bytes) (re : Option GoError) :
    (∀ p, p ≠ dest → (ioCopy os fs dest data re).2 p = fs p)
    ∧ (ioCopy os fs dest data re).2 dest ≠ none
    ∧ ((ioCopy os fs dest data re).1 = none →
        re = none ∧ (ioCopy os fs dest data re).2 dest = some ((fs dest).getD [] ++ data)) := by
  unfold ioCopy
  cases hw : os.write dest with
  | none => simp [FS.put]; intro p hp; simp [hp]
  | some f =>
    obtain ⟨n, err⟩ := f
    by_cases hn : n < data.length
    · simp [hn, FS.put]; intro p hp; simp [hp]
    · simp [hn, FS.put]; intro p hp; simp [hp]

theorem copyFile_spec (os : OS) (fs : FS) (src dst : String) (data : Bytes)
    (hsrc : fs src = some data) :
    (∀ p, p ≠ dst → (copyFile os fs src dst).fs p = fs p)
    ∧ (∀ p, fs p ≠ none → (copyFile os fs src dst).fs p ≠ none)
    ∧ ((copyFile os fs src dst).val = none →
        (copyFile os fs src dst).fs dst = some data
        ∧ (copyFile os fs src dst).trace = [Effect.readFile src, Effect.writeFile dst])
    ∧ (∀ e, (copyFile os fs src dst).val = some e →
        (∀ inner, e ≠ errorfW "writefile: " inner) → (copyFile os fs src dst).fs dst = fs dst)
    ∧ (copyFile os fs src dst).trace <+: [Effect.readFile src, Effect.writeFile dst] := by
  cases hr : os.readFile src with
  | some err => simp [copyFile, osReadFile, hr]
  | none =>
    cases hw : os.writeFile dst with
    | none =>
      simp [copyFile, osReadFile, osWriteFile, hr, hw, hsrc, FS.put]
      refine ⟨fun p hp => by simp [hp], fun p hp => by split <;> simp [hp]⟩
    | some f =>
      cases f with
      | openFails err => simp [copyFile, osReadFile, osWriteFile, hr, hw, hsrc]
      | writeFails n err =>
        simp [copyFile, osReadFile, osWriteFile, hr, hw, hsrc, FS.put]
        refine ⟨fun p hp hp2 => absurd hp2 hp, fun p hp => by split <;> simp [hp]⟩

theorem copyFile_dst (os : OS) (fs : FS) (src dst : String) (data : Bytes)
    (hsrc : fs src = some data) :
    (copyFile os fs src dst).fs dst = fs dst
    ∨ ∃ n, (copyFile os fs src dst).fs dst = some (data.take n) := by
  cases hr : os.readFile src with
  | some err =>
    left
    simp [copyFile, osReadFile, hr]
  | none =>
    cases hw : os.writeFile dst with
    | none =>
      right
      refine ⟨data.length, ?_⟩
      simp [copyFile, osReadFile, osWriteFile, hr, hw, hsrc, FS.put]
    | some f =>
      cases f with
      | openFails err =>
        left
        simp [copyFile, osReadFile, osWriteFile, hr, hw, hsrc]
      | writeFails n err =>
        right
        refine ⟨n, ?_⟩
        simp [copyFile, osReadFile, osWriteFile, hr, hw, hsrc, FS.put]

theorem download_spec (os : OS) (fs : FS) (url dst : String) :
    (∀ p, p ≠ dst → p ≠ dst ++ ".tmp" → (download os fs url dst).fs p = fs p)
    ∧ (∀ p, fs p ≠ none → (download os fs url dst).fs p ≠ none)
    ∧ ((download os fs url dst).val = none →
        ∃ resp data, os.httpGet url = Except.ok resp ∧ resp.StatusCode = 200
          ∧ resp.gzip = GzipStream.complete data
          ∧ (download os fs url dst).fs dst = some data
          ∧ (download os fs url dst).trace = downloadCalls url dst)
    ∧ (∀ e, (download os fs url dst).val = some e →
        (∀ inner, e ≠ errorfW "copy temp file: " (errorfW "writefile: " inner)) →
        (download os fs url dst).fs dst = fs dst)
    ∧ (download os fs url dst).trace <+: downloadCalls url dst
    ∧ ((download os fs url dst).fs dst = fs dst
      ∨ ∃ resp data n, os.httpGet url = Except.ok resp
          ∧ resp.gzip = GzipStream.complete data
          ∧ (download os fs url dst).fs dst = some (data.take n)) := by
  have hne := tmp_ne dst
  have hne2 : dst ≠ dst ++ ".tmp" := fun h => hne h.symm
  have hput : ∀ p, fs p ≠ none → (fs.put (dst ++ ".tmp") []) p ≠ none := by
    intro p hp
    unfold FS.put
    split <;> simp [hp]
  have hputf : ∀ p, p ≠ dst ++ ".tmp" → (fs.put (dst ++ ".tmp") []) p = fs p := by
    intro p hp
    simp [FS.put, hp]
  cases h1 : os.mkdirAll (pathDir dst) with
  | some err => simp [download, h1, downloadCalls]
  | none =>
    cases h2 : os.httpGet url with
    | error err => simp [download, h1, h2, downloadCalls]
    | ok resp =>
      by_cases h3 : resp.StatusCode = 200
      swap
      · simp [download, h1, h2, h3, downloadCalls]
      cases h4 : os.create (dst ++ ".tmp") with
      | some err => simp [download, h1, h2, h3, h4, downloadCalls]
      | none =>
        cases h5 : os.chmod (dst ++ ".tmp") with
        | some err =>
          simp only [download, h1, h2, h3, h4, h5, downloadCalls, ne_eq, not_true_eq_false, if_false]
          refine ⟨fun p _ hp => hputf p hp, hput, by simp, fun _ _ _ => hputf dst hne2, by simp,
            Or.inl (hputf dst hne2)⟩
        | none =>
          cases h6 : resp.gzip with
          | badHeader err =>
            simp only [download, h1, h2, h3, h4, h5, h6, downloadCalls, ne_eq, not_true_eq_false, if_false]
            refine ⟨fun p _ hp => hputf p hp, hput, by simp, fun _ _ _ => hputf dst hne2, by simp,
            Or.inl (hputf dst hne2)⟩
          | truncated data err =>
            have hc := ioCopy_spec os (fs.put (dst ++ ".tmp") []) (dst ++ ".tmp") data (some err)
            simp only [download, h1, h2, h3, h4, h5, h6, downloadCalls, ne_eq, not_true_eq_false, if_false]
            refine ⟨fun p _ hp => by rw [hc.1 p hp, hputf p hp], ?_, by simp,
              fun _ _ _ => by rw [hc.1 dst hne2, hputf dst hne2], by simp,
              Or.inl (by rw [hc.1 dst hne2, hputf dst hne2])⟩
            intro p hp
            by_cases hpd : p = dst ++ ".tmp"
            · rw [hpd]; exact hc.2.1
            · rw [hc.1 p hpd]; exact hput p hp
          | complete data =>
            have hc := ioCopy_spec os (fs.put (dst ++ ".tmp") []) (dst ++ ".tmp") data none
            cases h7 : ioCopy os (fs.put (dst ++ ".tmp") []) (dst ++ ".tmp") data none with
            | mk cerr fs2 =>
              rw [h7] at hc
              have hmono2 : ∀ p, fs p ≠ none → fs2 p ≠ none := by
                intro p hp
                by_cases hpd : p = dst ++ ".tmp"
                · rw [hpd]; exact hc.2.1
                · have := hc.1 p hpd
                  simp only at this
                  rw [this]; exact hput p hp
              have hframe2 : ∀ p, p ≠ dst ++ ".tmp" → fs2 p = fs p := by
                intro p hpd
                have := hc.1 p hpd
                simp only at this
                rw [this]; exact hputf p hpd
              cases cerr with
              | some err =>
                simp only [download, h1, h2, h3, h4, h5, h6, h7, downloadCalls, ne_eq, not_true_eq_false, if_false]
                refine ⟨fun p _ hp => hframe2 p hp, hmono2, by simp,
                  fun _ _ _ => hframe2 dst hne2, by simp, Or.inl (hframe2 dst hne2)⟩
              | none =>
                have hdest : fs2 (dst ++ ".tmp") = some data := by
                  have := (hc.2.2 rfl).2
                  simpa [FS.put] using this
                have hcp := copyFile_spec os fs2 (dst ++ ".tmp") dst data hdest
                cases h8 : (copyFile os fs2 (dst ++ ".tmp") dst).val with
                | none =>
                  simp only [download, h1, h2, h3, h4, h5, h6, h7, h8, downloadCalls, ne_eq, not_true_eq_false, if_false]
                  have hcv := hcp.2.2.1 h8
                  refine ⟨fun p hp1 hp2 => by rw [hcp.1 p hp1, hframe2 p hp2],
                    fun p hp => hcp.2.1 p (hmono2 p hp), ?_, by simp, ?_,
                    Or.inr ⟨resp, data, data.length, rfl, h6, by rw [hcv.1, List.take_length]⟩⟩
                  · intro _
                    exact ⟨resp, data, rfl, h3, h6, hcv.1, by rw [hcv.2]; rfl⟩
                  · rw [hcv.2]; exact List.prefix_refl _
                | some e2 =>
                  simp only [download, h1, h2, h3, h4, h5, h6, h7, h8, downloadCalls, ne_eq, not_true_eq_false, if_false]
                  refine ⟨fun p hp1 hp2 => by rw [hcp.1 p hp1, hframe2 p hp2],
                    fun p hp => hcp.2.1 p (hmono2 p hp), by simp, ?_, ?_, ?_⟩
                  · intro e he hform
                    have he2 : e = errorfW "copy temp file: " e2 := by
                      simpa using he.symm
                    rw [hcp.2.2.2.1 e2 h8 (fun inner hin => hform inner (by rw [he2, hin])),
                      hframe2 dst hne2]
                  · have := hcp.2.2.2.2
                    exact (List.prefix_append_right_inj _).2 this
                  · rcases copyFile_dst os fs2 (dst ++ ".tmp") dst data hdest with hsame | ⟨n, hn⟩
                    · exact Or.inl (by rw [hsame, hframe2 dst hne2])
                    · exact Or.inr ⟨resp, data, n, rfl, h6, hn⟩

/-- C9, amended: when `download` returns an error other than the failure of the
final `os.WriteFile` (that is: MkdirAll, the request, a status other than 200,
creating or chmod-ing the temporary file, the gzip header, copying while
decompressing, reading the temporary file back), the destination holds what it
held before the call, and stays absent when it was absent. When it returns
nil, the response had status 200 and a complete gzip stream, and the
destination holds exactly the decompressed payload. Every create, chmod and
streamed write goes to the sibling path with the suffix ".tmp"; the only call
that writes the destination is the last of the seven calls of a complete run,
made once the temporary file holds the whole payload. Whatever `download`
returns, the destination holds what it held before or the first bytes of the
complete payload: the write of the destination is not atomic. -/
theorem download_no_partial_artifact (os : OS) (fs : FS) (url dst : String) :
    (∀ e, (download os fs url dst).val = some e →
        (∀ inner, e ≠ errorfW "copy temp file: " (errorfW "writefile: " inner)) →
        (download os fs url dst).fs dst = fs dst)
    ∧ ((download os fs url dst).val = none →
        ∃ resp data, os.httpGet url = Except.ok resp ∧ resp.StatusCode = 200
          ∧ resp.gzip = GzipStream.complete data
          ∧ (download os fs url dst).fs dst = some data)
    ∧ (∀ p, (Effect.create p ∈ (download os fs url dst).trace
          ∨ Effect.chmod p ∈ (download os fs url dst).trace
          ∨ Effect.write p ∈ (download os fs url dst).trace) → p = dst ++ ".tmp")
    ∧ (∀ p, Effect.writeFile p ∈ (download os fs url dst).trace →
        p = dst ∧ (download os fs url dst).trace = downloadCalls url dst)
    ∧ ((download os fs url dst).fs dst = fs dst
      ∨ ∃ resp data n, os.httpGet url = Except.ok resp
          ∧ resp.gzip = GzipStream.complete data
          ∧ (download os fs url dst).fs dst = some (data.take n)) := by
  have h := download_spec os fs url dst
  refine ⟨h.2.2.2.1, ?_, ?_, ?_, h.2.2.2.2.2⟩
  · intro hok
    obtain ⟨resp, data, h1, h2, h3, h4, _⟩ := h.2.2.1 hok
    exact ⟨resp, data, h1, h2, h3, h4⟩
  · intro p hp
    have hsub := h.2.2.2.2.1.subset
    rcases hp with hp | hp | hp
    · have := hsub hp
      simpa [downloadCalls] using this
    · have := hsub hp
      simpa [downloadCalls] using this
    · have := hsub hp
      simpa [downloadCalls] using this
  · intro p hp
    have hpre := h.2.2.2.2.1
    have hmem := hpre.subset hp
    have hp2 : p = dst := by simpa [downloadCalls] using hmem
    refine ⟨hp2, ?_⟩
    have hlen : (download os fs url dst).trace.length ≤ 7 := by
      simpa [downloadCalls] using hpre.length_le
    have htake := List.prefix_iff_eq_take.1 hpre
    generalize (download os fs url dst).trace.length = n at htake hlen
    rw [htake] at hp ⊢
    interval_cases n <;> simp [downloadCalls] at hp ⊢

/-- A corrupt body leaves the old artifact [9] in place; a good body replaces
an absent artifact by the payload. -/
theorem download_no_partial_artifact_witness :
    (download corruptMirror (oneFile "/c/engine" [9]) "http://m/e.gz" "/c/engine").fs "/c/engine"
      = oneFile "/c/engine" [9] "/c/engine"
    ∧ ∃ resp data, (mirror [1, 2, 3]).httpGet "http://m/e.gz" = Except.ok resp
        ∧ resp.StatusCode = 200 ∧ resp.gzip = GzipStream.complete data
        ∧ (download (mirror [1, 2, 3]) emptyFS "http://m/e.gz" "/c/engine").fs "/c/engine"
          = some data :=
  ⟨(download_no_partial_artifact corruptMirror (oneFile "/c/engine" [9]) "http://m/e.gz"
      "/c/engine").1
      (GoError.wrapError "could not create gzip reader: gzip: invalid header"
        (GoError.errorString "gzip: invalid header"))
      (by decide) (fun inner h => by simp [errorfW] at h),
   (download_no_partial_artifact (mirror [1, 2, 3]) emptyFS "http://m/e.gz" "/c/engine").2.1
      (by decide)⟩

/-- C9, as the claim states it, fails: when the final `os.WriteFile` fails after
it truncated the destination, `download` returns an error and the destination,
which held [9], holds [1]: neither what it held before nor the payload
[1, 2, 3], but a part of it. -/
theorem download_final_write_fault :
    oneFile "/c/engine" [9] "/c/engine" = some [9]
    ∧ (download (fullDisk [1, 2, 3]) (oneFile "/c/engine" [9]) "http://m/e.gz" "/c/engine").val
      = some (GoError.wrapError "copy temp file: writefile: no space left on device"
          (GoError.wrapError "writefile: no space left on device"
            (GoError.errorString "no space left on device")))
    ∧ (download (fullDisk [1, 2, 3]) (oneFile "/c/engine" [9]) "http://m/e.gz" "/c/engine").fs
        "/c/engine" = some [1]
    ∧ (download (fullDisk [1, 2, 3]) (oneFile "/c/engine" [9]) "http://m/e.gz" "/c/engine").fs
        "/c/engine" ≠ oneFile "/c/engine" [9] "/c/engine"
    ∧ (download (fullDisk [1, 2, 3]) (oneFile "/c/engine" [9]) "http://m/e.gz" "/c/engine").fs
        "/c/engine" ≠ some [1, 2, 3] := by
  decide

/-! ## The engine acquirer -/

theorem DownloadEngine_cached (pf : Platform) (cfg : Config) (os : OS) (fs : FS)
    (e : Engine) (toDir : String) (h : fs (enginePath pf cfg toDir e) ≠ none) :
    DownloadEngine pf cfg os fs e.Name toDir
      = Run.mk (enginePath pf cfg toDir e, none) fs [Effect.stat (enginePath pf cfg toDir e)] := by
  unfold enginePath at h ⊢
  cases hf : fs (GetEnginePath pf cfg toDir e.Name pf.BinaryPlatformName) with
  | none => exact absurd hf h
  | some d => simp [DownloadEngine, osStat, osIsNotExist, hf]

theorem DownloadEngine_missing (pf : Platform) (cfg : Config) (os : OS) (fs : FS)
    (e : Engine) (toDir : String)
    (h : osIsNotExist (osStat os fs (enginePath pf cfg toDir e)) = true) :
    (∀ err, (download os fs (engineUrl pf cfg e) (enginePath pf cfg toDir e)).val = some err →
      (DownloadEngine pf cfg os fs e.Name toDir).val.2 ≠ none)
    ∧ ((download os fs (engineUrl pf cfg e) (enginePath pf cfg toDir e)).val = none →
      DownloadEngine pf cfg os fs e.Name toDir
        = Run.mk (enginePath pf cfg toDir e, none)
            (download os fs (engineUrl pf cfg e) (enginePath pf cfg toDir e)).fs
            (Effect.stat (enginePath pf cfg toDir e)
              :: (download os fs (engineUrl pf cfg e) (enginePath pf cfg toDir e)).trace)) := by
  unfold enginePath engineUrl at *
  constructor
  · intro err herr
    simp [DownloadEngine, h, herr]
  · intro hok
    simp [DownloadEngine, h, hok]

theorem DownloadEngine_present (pf : Platform) (cfg : Config) (os : OS) (fs : FS)
    (name toDir p : String) (h : fs p ≠ none) :
    (DownloadEngine pf cfg os fs name toDir).fs p ≠ none := by
  unfold DownloadEngine
  simp only []
  split
  · exact h
  · split
    · exact (download_spec os fs _ _).2.1 p h
    · exact (download_spec os fs _ _).2.1 p h

theorem fetchEngines_present (pf : Platform) (cfg : Config) (os : OS) (toDir p : String)
    (engines : List Engine) :
    ∀ fs : FS, fs p ≠ none → (fetchEngines pf cfg os toDir engines fs).fs p ≠ none := by
  induction engines with
  | nil => intro fs h; exact h
  | cons e rest ih =>
    intro fs h
    have h1 := DownloadEngine_present pf cfg os fs e.Name toDir p h
    unfold fetchEngines
    simp only []
    split
    · exact h1
    · exact ih _ h1

theorem filepathIsAbs_ne_empty (dir : String) (h : filepathIsAbs dir = true) : dir ≠ "" := by
  intro he
  rw [he] at h
  exact absurd h (by decide)

theorem FetchNative_abs (pf : Platform) (cfg : Config) (os : OS) (fs : FS) (dir : String)
    (h : filepathIsAbs dir = true) :
    FetchNative pf cfg os fs dir = fetchEngines pf cfg os dir Engines fs := by
  simp [FetchNative, filepathIsAbs_ne_empty dir h, h]

theorem FetchNative_present (pf : Platform) (cfg : Config) (os : OS) (fs : FS) (dir p : String)
    (h : fs p ≠ none) : (FetchNative pf cfg os fs dir).fs p ≠ none := by
  unfold FetchNative
  split
  · exact h
  · split
    · exact h
    · exact fetchEngines_present pf cfg os dir p Engines fs h

theorem fetchEngines_cons_ok (pf : Platform) (cfg : Config) (os : OS) (toDir : String)
    (e : Engine) (rest : List Engine) (fs : FS)
    (hok : (fetchEngines pf cfg os toDir (e :: rest) fs).val = none) :
    (DownloadEngine pf cfg os fs e.Name toDir).val.2 = none
    ∧ (fetchEngines pf cfg os toDir rest (DownloadEngine pf cfg os fs e.Name toDir).fs).val = none
    ∧ (fetchEngines pf cfg os toDir (e :: rest) fs).fs
        = (fetchEngines pf cfg os toDir rest (DownloadEngine pf cfg os fs e.Name toDir).fs).fs
    ∧ (fetchEngines pf cfg os toDir (e :: rest) fs).trace
        = (DownloadEngine pf cfg os fs e.Name toDir).trace
          ++ (fetchEngines pf cfg os toDir rest
              (DownloadEngine pf cfg os fs e.Name toDir).fs).trace := by
  cases hv : (DownloadEngine pf cfg os fs e.Name toDir).val.2 with
  | some err =>
    simp [fetchEngines, hv] at hok
  | none =>
    simp only [fetchEngines, hv] at hok ⊢
    simpa using hok

theorem DownloadEngine_missing_ok (pf : Platform) (cfg : Config) (os : OS) (fs : FS)
    (e : Engine) (toDir : String)
    (h : osIsNotExist (osStat os fs (enginePath pf cfg toDir e)) = true)
    (hok : (DownloadEngine pf cfg os fs e.Name toDir).val.2 = none) :
    (DownloadEngine pf cfg os fs e.Name toDir).fs
        = (download os fs (engineUrl pf cfg e) (enginePath pf cfg toDir e)).fs
    ∧ (DownloadEngine pf cfg os fs e.Name toDir).trace
        = Effect.stat (enginePath pf cfg toDir e)
            :: downloadCalls (engineUrl pf cfg e) (enginePath pf cfg toDir e)
    ∧ (download os fs (engineUrl pf cfg e) (enginePath pf cfg toDir e)).fs
        (enginePath pf cfg toDir e) ≠ none
    ∧ ∀ p, p ≠ enginePath pf cfg toDir e → p ≠ enginePath pf cfg toDir e ++ ".tmp" →
        (download os fs (engineUrl pf cfg e) (enginePath pf cfg toDir e)).fs p = fs p := by
  have hm := DownloadEngine_missing pf cfg os fs e toDir h
  have hs := download_spec os fs (engineUrl pf cfg e) (enginePath pf cfg toDir e)
  cases hd : (download os fs (engineUrl pf cfg e) (enginePath pf cfg toDir e)).val with
  | some err => exact absurd hok (hm.1 err hd)
  | none =>
    obtain ⟨resp, data, _, _, _, hdst, htr⟩ := hs.2.2.1 hd
    rw [hm.2 hd]
    refine ⟨rfl, by simp only [htr], by rw [hdst]; simp, hs.1⟩

theorem fetchEngines_all_cached (pf : Platform) (cfg : Config) (os : OS) (toDir : String)
    (fs : FS) (engines : List Engine)
    (h : ∀ e ∈ engines, fs (enginePath pf cfg toDir e) ≠ none) :
    fetchEngines pf cfg os toDir engines fs
      = Run.mk none fs (engines.map (fun e => Effect.stat (enginePath pf cfg toDir e))) := by
  induction engines with
  | nil => rfl
  | cons e rest ih =>
    have hc := DownloadEngine_cached pf cfg os fs e toDir (h e (List.mem_cons_self e rest))
    have ih2 := ih (fun e2 he2 => h e2 (List.mem_cons_of_mem e he2))
    simp only [fetchEngines, hc, ih2, List.map_cons, List.singleton_append]

/-- C6, as the claim states it, fails: in a cache that holds no engine file but
has a regular file where the version directory should be, `os.Stat` of each
engine path fails with an error other than not-exist, `DownloadEngine` takes
that for a cache hit, and the first `FetchNative` succeeds without any HTTP
request, not one per engine. -/
theorem FetchNative_stat_error_no_download :
    filepathIsAbs "/tmp/cache" = true
    ∧ (∀ e ∈ Engines,
        oneFile "/tmp/cache/58b76d24c10d06ee3aba2c8f1e5cbe75db073d3c" [0]
          (enginePath exampleHost shipped "/tmp/cache" e) = none)
    ∧ (FetchNative exampleHost shipped (versionIsFile [1, 2, 3])
        (oneFile "/tmp/cache/58b76d24c10d06ee3aba2c8f1e5cbe75db073d3c" [0]) "/tmp/cache").val
      = none
    ∧ (FetchNative exampleHost shipped (versionIsFile [1, 2, 3])
        (oneFile "/tmp/cache/58b76d24c10d06ee3aba2c8f1e5cbe75db073d3c" [0])
        "/tmp/cache").trace.filter Effect.isHttp = []
    ∧ Engines.length = 2 := by
  decide

/-- C6, amended: starting from an absolute cache directory in which `os.Stat`
reports every engine path of this host as not existing, the engine paths being
pairwise distinct and none the temporary sibling of another, a `FetchNative`
that succeeds makes exactly one HTTP request per engine of `Engines`, in order;
a second `FetchNative` on the filesystem it leaves succeeds, makes no HTTP
request and no write, only one `stat` per engine, and leaves the filesystem as
it is: every `DownloadEngine` finds the file at its cache path and returns that
path. -/
theorem FetchNative_second_run_cached (pf : Platform) (cfg : Config) (os : OS) (fs : FS)
    (dir : String) (habs : filepathIsAbs dir = true)
    (hmiss : ∀ e ∈ Engines, osIsNotExist (osStat os fs (enginePath pf cfg dir e)) = true)
    (hsep : ∀ e1 ∈ Engines, ∀ e2 ∈ Engines, e1 ≠ e2 →
      enginePath pf cfg dir e2 ≠ enginePath pf cfg dir e1
      ∧ enginePath pf cfg dir e2 ≠ enginePath pf cfg dir e1 ++ ".tmp")
    (hok : (FetchNative pf cfg os fs dir).val = none) :
    (FetchNative pf cfg os fs dir).trace.filter Effect.isHttp
        = Engines.map (fun e => Effect.httpGet (engineUrl pf cfg e))
    ∧ (∀ e ∈ Engines,
        DownloadEngine pf cfg os (FetchNative pf cfg os fs dir).fs e.Name dir
          = Run.mk (enginePath pf cfg dir e, none) (FetchNative pf cfg os fs dir).fs
              [Effect.stat (enginePath pf cfg dir e)])
    ∧ (FetchNative pf cfg os (FetchNative pf cfg os fs dir).fs dir).val = none
    ∧ (FetchNative pf cfg os (FetchNative pf cfg os fs dir).fs dir).fs
        = (FetchNative pf cfg os fs dir).fs
    ∧ (FetchNative pf cfg os (FetchNative pf cfg os fs dir).fs dir).trace
        = Engines.map (fun e => Effect.stat (enginePath pf cfg dir e))
    ∧ (∀ ef ∈ (FetchNative pf cfg os (FetchNative pf cfg os fs dir).fs dir).trace,
        ef.isHttp = false ∧ ef.isWrite = false) := by
  have hq := hmiss (Engine.mk QueryEngineName "PRISMA_QUERY_ENGINE_BINARY") (by simp [Engines])
  have hs := hmiss (Engine.mk SchemaEngineName "PRISMA_INTROSPECTION_ENGINE_BINARY")
    (by simp [Engines])
  have hsep2 := hsep (Engine.mk QueryEngineName "PRISMA_QUERY_ENGINE_BINARY") (by simp [Engines])
    (Engine.mk SchemaEngineName "PRISMA_INTROSPECTION_ENGINE_BINARY") (by simp [Engines])
    (by decide)
  rw [FetchNative_abs pf cfg os fs dir habs] at hok ⊢
  rw [FetchNative_abs pf cfg os _ dir habs]
  have hE : Engines = [Engine.mk QueryEngineName "PRISMA_QUERY_ENGINE_BINARY",
      Engine.mk SchemaEngineName "PRISMA_INTROSPECTION_ENGINE_BINARY"] := rfl
  rw [hE] at hok ⊢
  generalize hqe : Engine.mk QueryEngineName "PRISMA_QUERY_ENGINE_BINARY" = q at *
  generalize hse : Engine.mk SchemaEngineName "PRISMA_INTROSPECTION_ENGINE_BINARY" = s at *
  obtain ⟨h1ok, h1rest, h1fs, h1tr⟩ := fetchEngines_cons_ok pf cfg os dir q [s] fs hok
  obtain ⟨d1fs, d1tr, d1there, d1frame⟩ := DownloadEngine_missing_ok pf cfg os fs q dir hq h1ok
  have hs1 : osIsNotExist (osStat os (DownloadEngine pf cfg os fs q.Name dir).fs
      (enginePath pf cfg dir s)) = true := by
    have hsame : (DownloadEngine pf cfg os fs q.Name dir).fs (enginePath pf cfg dir s)
        = fs (enginePath pf cfg dir s) := by
      rw [d1fs, d1frame _ hsep2.1 hsep2.2]
    simp only [osStat, hsame]
    simpa only [osStat] using hs
  obtain ⟨h2ok, _, h2fs, h2tr⟩ := fetchEngines_cons_ok pf cfg os dir s []
    (DownloadEngine pf cfg os fs q.Name dir).fs h1rest
  obtain ⟨d2fs, d2tr, d2there, _⟩ := DownloadEngine_missing_ok pf cfg os
    (DownloadEngine pf cfg os fs q.Name dir).fs s dir hs1 h2ok
  have hfs : (fetchEngines pf cfg os dir [q, s] fs).fs
      = (DownloadEngine pf cfg os (DownloadEngine pf cfg os fs q.Name dir).fs s.Name dir).fs := by
    rw [h1fs, h2fs]
    rfl
  have hthere_s : (fetchEngines pf cfg os dir [q, s] fs).fs (enginePath pf cfg dir s) ≠ none := by
    rw [hfs, d2fs]
    exact d2there
  have hthere_q : (fetchEngines pf cfg os dir [q, s] fs).fs (enginePath pf cfg dir q) ≠ none := by
    rw [hfs]
    apply DownloadEngine_present
    rw [d1fs]
    exact d1there
  have hcq := DownloadEngine_cached pf cfg os (fetchEngines pf cfg os dir [q, s] fs).fs q dir
    hthere_q
  have hcs := DownloadEngine_cached pf cfg os (fetchEngines pf cfg os dir [q, s] fs).fs s dir
    hthere_s
  have hsecond := fetchEngines_all_cached pf cfg os dir (fetchEngines pf cfg os dir [q, s] fs).fs
    [q, s] (by
      intro e he
      simp only [List.mem_cons, List.mem_singleton, List.not_mem_nil, or_false] at he
      rcases he with he | he
      · rw [he]; exact hthere_q
      · rw [he]; exact hthere_s)
  refine ⟨?_, ?_, ?_, ?_, ?_, ?_⟩
  · rw [h1tr, h2tr, d1tr, d2tr]
    simp [fetchEngines, downloadCalls, Effect.isHttp, List.filter]
  · intro e he
    simp only [List.mem_cons, List.mem_singleton, List.not_mem_nil, or_false] at he
    rcases he with he | he
    · rw [he]; exact hcq
    · rw [he]; exact hcs
  · rw [hsecond]
  · rw [hsecond]
  · rw [hsecond]
  · rw [hsecond]
    intro ef hef
    simp only [List.map_cons, List.map_nil, List.mem_cons, List.mem_singleton,
      List.not_mem_nil, or_false] at hef
    rcases hef with rfl | rfl <;> exact ⟨rfl, rfl⟩

/-- The test `TestFetch_withCache` on a Debian host with an empty cache and a
mirror that serves both engines. -/
theorem FetchNative_second_run_cached_witness :
    (FetchNative exampleHost shipped (mirror [1, 2, 3]) emptyFS "/tmp/cache").trace.filter
        Effect.isHttp
      = Engines.map (fun e => Effect.httpGet (engineUrl exampleHost shipped e))
    ∧ (FetchNative exampleHost shipped (mirror [1, 2, 3])
        (FetchNative exampleHost shipped (mirror [1, 2, 3]) emptyFS "/tmp/cache").fs
        "/tmp/cache").val = none
    ∧ (FetchNative exampleHost shipped (mirror [1, 2, 3])
        (FetchNative exampleHost shipped (mirror [1, 2, 3]) emptyFS "/tmp/cache").fs
        "/tmp/cache").trace
      = Engines.map (fun e => Effect.stat (enginePath exampleHost shipped "/tmp/cache" e)) :=
  have h := FetchNative_second_run_cached exampleHost shipped (mirror [1, 2, 3]) emptyFS
    "/tmp/cache" (by decide) (by decide) (by decide) (by decide)
  ⟨h.1, h.2.2.1, h.2.2.2.2.1⟩

/-- C8, as the claim states it, fails: with the override set to a file that
exists, an empty cache and an unreachable network, `ensure` returns an error and
not the override path, and it has sent an HTTP request; with a reachable mirror
it returns the override path only after two HTTP requests. -/
theorem ensure_override_consults_network :
    oneFile "/opt/prisma/introspection-engine" [7] "/opt/prisma/introspection-engine" ≠ none
    ∧ (IntrospectEngine.ensure exampleHost shipped offline
        (overrideEnv "/opt/prisma/introspection-engine") "/home/u/.cache"
        (oneFile "/opt/prisma/introspection-engine" [7])).val.1 = ""
    ∧ (IntrospectEngine.ensure exampleHost shipped offline
        (overrideEnv "/opt/prisma/introspection-engine") "/home/u/.cache"
        (oneFile "/opt/prisma/introspection-engine" [7])).val.2 ≠ none
    ∧ ((IntrospectEngine.ensure exampleHost shipped offline
        (overrideEnv "/opt/prisma/introspection-engine") "/home/u/.cache"
        (oneFile "/opt/prisma/introspection-engine" [7])).trace.filter Effect.isHttp).length = 1
    ∧ (IntrospectEngine.ensure exampleHost shipped (mirror [1, 2, 3])
        (overrideEnv "/opt/prisma/introspection-engine") "/home/u/.cache"
        (oneFile "/opt/prisma/introspection-engine" [7])).val
      = ("/opt/prisma/introspection-engine", none)
    ∧ ((IntrospectEngine.ensure exampleHost shipped (mirror [1, 2, 3])
        (overrideEnv "/opt/prisma/introspection-engine") "/home/u/.cache"
        (oneFile "/opt/prisma/introspection-engine" [7])).trace.filter Effect.isHttp).length
      = 2 := by
  decide

/-- C8, amended: `ensure` first runs `FetchNative` on the global cache directory,
whatever the override is. When that fails, `ensure` returns the error "could not
fetch binaries: ..." wrapping the failure. When it succeeds and the override
`PRISMA_INTROSPECTION_ENGINE_BINARY` is set to a path that exists, `ensure`
returns exactly that path and no error; its calls are those of `FetchNative`
followed by one `stat` of the override path. -/
theorem ensure_override_after_fetch (pf : Platform) (cfg : Config) (os : OS)
    (getenv : String → String) (cache : String) (fs : FS) :
    (FetchNative pf cfg os fs (GlobalCacheDir cfg cache)).trace
        <+: (IntrospectEngine.ensure pf cfg os getenv cache fs).trace
    ∧ (IntrospectEngine.ensure pf cfg os getenv cache fs).fs
        = (FetchNative pf cfg os fs (GlobalCacheDir cfg cache)).fs
    ∧ (∀ err, (FetchNative pf cfg os fs (GlobalCacheDir cfg cache)).val = some err →
        (IntrospectEngine.ensure pf cfg os getenv cache fs).val
          = ("", some (GoError.wrapError ("could not fetch binaries: " ++ err.Error) err))
        ∧ (IntrospectEngine.ensure pf cfg os getenv cache fs).trace
          = (FetchNative pf cfg os fs (GlobalCacheDir cfg cache)).trace)
    ∧ ((FetchNative pf cfg os fs (GlobalCacheDir cfg cache)).val = none →
        getenv "PRISMA_INTROSPECTION_ENGINE_BINARY" ≠ "" →
        fs (getenv "PRISMA_INTROSPECTION_ENGINE_BINARY") ≠ none →
        (IntrospectEngine.ensure pf cfg os getenv cache fs).val
          = (getenv "PRISMA_INTROSPECTION_ENGINE_BINARY", none)
        ∧ (IntrospectEngine.ensure pf cfg os getenv cache fs).trace
          = (FetchNative pf cfg os fs (GlobalCacheDir cfg cache)).trace
            ++ [Effect.stat (getenv "PRISMA_INTROSPECTION_ENGINE_BINARY")]) := by
  have hpres := FetchNative_present pf cfg os fs (GlobalCacheDir cfg cache)
    (getenv "PRISMA_INTROSPECTION_ENGINE_BINARY")
  cases hf : (FetchNative pf cfg os fs (GlobalCacheDir cfg cache)).val with
  | some err =>
    simp [IntrospectEngine.ensure, hf, errorfW]
  | none =>
    unfold IntrospectEngine.ensure
    simp only [hf]
    by_cases henv : getenv "PRISMA_INTROSPECTION_ENGINE_BINARY" ≠ ""
    · rw [if_pos henv]
      cases hst : (FetchNative pf cfg os fs (GlobalCacheDir cfg cache)).fs
          (getenv "PRISMA_INTROSPECTION_ENGINE_BINARY") with
      | none =>
        simp only [osStat, hst]
        refine ⟨by simp, by first | rfl | trivial, by simp, ?_⟩
        intro _ _ hthere
        exact absurd hst (hpres hthere)
      | some d =>
        simp only [osStat, hst]
        rw [if_neg henv]
        exact ⟨by simp, rfl, by simp, fun _ _ _ => by simp⟩
    · rw [if_neg henv]
      refine ⟨?_, ?_, by simp, fun _ h => absurd h henv⟩
      · repeat' split
        all_goals simp
      · repeat' split
        all_goals rfl

/-- With a reachable mirror and the override set to a file that exists,
`ensure` returns the override path. -/
theorem ensure_override_after_fetch_witness :
    (IntrospectEngine.ensure exampleHost shipped (mirror [1, 2, 3])
        (overrideEnv "/opt/prisma/introspection-engine") "/home/u/.cache"
        (oneFile "/opt/prisma/introspection-engine" [7])).val
      = (overrideEnv "/opt/prisma/introspection-engine" "PRISMA_INTROSPECTION_ENGINE_BINARY",
          none) :=
  ((ensure_override_after_fetch exampleHost shipped (mirror [1, 2, 3])
      (overrideEnv "/opt/prisma/introspection-engine") "/home/u/.cache"
      (oneFile "/opt/prisma/introspection-engine" [7])).2.2.2
      (by decide) (by decide) (by decide)).1

/-! ## The cache layout -/

theorem splitSlash_ne_nil (x : List Char) : splitSlash x ≠ [] := by
  cases x with
  | nil => simp [splitSlash]
  | cons c cs =>
    unfold splitSlash
    split
    · simp
    · split <;> simp

theorem splitSlash_append (a b : List Char) :
    splitSlash (a ++ '/' :: b) = splitSlash a ++ splitSlash b := by
  induction a with
  | nil => simp [splitSlash]
  | cons c a ih =>
    by_cases hc : c = '/'
    · simp [splitSlash, hc, ih]
    · cases hs : splitSlash a with
      | nil => exact absurd hs (splitSlash_ne_nil a)
      | cons h t =>
        simp only [List.cons_append, splitSlash, hc, if_false, List.append_eq, ih, hs]

theorem splitSlash_noslash (x : List Char) (h : '/' ∉ x) : splitSlash x = [x] := by
  induction x with
  | nil => rfl
  | cons c cs ih =>
    have hc : c ≠ '/' := fun e => h (by simp [e])
    have hcs : '/' ∉ cs := fun e => h (List.mem_cons_of_mem c e)
    simp only [splitSlash, hc, if_false, ih hcs]

theorem cleanStep_proper (rooted : Bool) (out : List (List Char)) (x : List Char)
    (h : properElem x) : cleanStep rooted out x = out ++ [x] := by
  obtain ⟨h1, _, h3, h4⟩ := h
  simp [cleanStep, h1, h3, h4]

theorem joinSlash_snoc (o : List (List Char)) (x : List Char) (ho : o ≠ []) :
    joinSlash (o ++ [x]) = joinSlash o ++ '/' :: x := by
  induction o with
  | nil => exact absurd rfl ho
  | cons a t ih =>
    cases t with
    | nil => simp [joinSlash]
    | cons b t2 =>
      have := ih (by simp)
      simp only [List.cons_append, joinSlash, List.append_eq] at this ⊢
      rw [this]
      simp

/-- Cleaning a path that ends in two proper elements keeps both at the end:
what stands before them depends on the rest of the path only. -/
theorem cleanChars_two_proper (d : List Char) (rooted : Bool) (v n : List Char)
    (hv : properElem v) (hn : properElem n) :
    joinSlash ((splitSlash (d ++ '/' :: (v ++ '/' :: n))).foldl (cleanStep rooted) [])
      = (if (splitSlash d).foldl (cleanStep rooted) [] = [] then []
          else joinSlash ((splitSlash d).foldl (cleanStep rooted) []) ++ ['/'])
        ++ v ++ '/' :: n := by
  rw [splitSlash_append, splitSlash_append, splitSlash_noslash v hv.2.1,
    splitSlash_noslash n hn.2.1, List.foldl_append, List.foldl_append]
  simp only [List.foldl_cons, List.foldl_nil, cleanStep_proper _ _ v hv,
    cleanStep_proper _ _ n hn]
  rw [joinSlash_snoc _ n (by simp)]
  by_cases ho : (splitSlash d).foldl (cleanStep rooted) [] = []
  · simp [ho, joinSlash]
  · rw [joinSlash_snoc _ v ho]
    simp [ho]

theorem hasPrefixChars_slash_append (d t : List Char) (hd : d ≠ []) :
    hasPrefixChars (d ++ t) ['/'] = hasPrefixChars d ['/'] := by
  cases d with
  | nil => exact absurd rfl hd
  | cons c cs => simp [hasPrefixChars]

theorem hasPrefixChars_slash_proper (v t : List Char) (hv : properElem v) :
    hasPrefixChars (v ++ t) ['/'] = false := by
  cases v with
  | nil => exact absurd rfl hv.1
  | cons c cs =>
    have hc : c ≠ '/' := fun e => hv.2.1 (by simp [e])
    simp [hasPrefixChars, hc]

theorem filepathJoin_three (dir v n : String) (hv : properElem v.data)
    (hn : properElem n.data) :
    (filepathJoin [dir, v, n]).data = joinLead dir ++ v.data ++ '/' :: n.data := by
  have hvne : v ≠ "" := by
    intro e
    rw [e] at hv
    exact hv.1 rfl
  by_cases hd : dir = ""
  · subst hd
    have hsplit : splitSlash (v.data ++ '/' :: n.data) = [v.data, n.data] := by
      rw [splitSlash_append, splitSlash_noslash _ hv.2.1, splitSlash_noslash _ hn.2.1]
      rfl
    have hne : v.data ++ '/' :: n.data ≠ [] := by simp
    simp only [filepathJoin, List.dropWhile, decide_True, hvne, decide_False, List.map,
      joinSlash, cleanChars, hne, if_false, hasPrefixChars_slash_proper _ _ hv, hsplit,
      List.foldl_cons, List.foldl_nil, cleanStep_proper _ _ _ hv, cleanStep_proper _ _ _ hn,
      List.nil_append, List.cons_append, joinLead, if_true]
    simp
  · have hdd : dir.data ≠ [] := by
      intro e
      apply hd
      apply String.ext
      exact e
    have hne : dir.data ++ '/' :: (v.data ++ '/' :: n.data) ≠ [] := by simp [hdd]
    have hbody := cleanChars_two_proper dir.data (hasPrefixChars dir.data ['/']) v.data n.data
      hv hn
    simp only [filepathJoin, List.dropWhile, hd, decide_False, List.map, joinSlash, cleanChars,
      hne, if_false, hasPrefixChars_slash_append _ _ hdd, hbody, joinLead]
    by_cases hr : hasPrefixChars dir.data ['/'] = true
    · simp [hr]
    · simp [hr]

theorem filepathJoin_version_inj (dir v1 v2 n : String) (h1 : properElem v1.data)
    (h2 : properElem v2.data) (hn : properElem n.data)
    (h : filepathJoin [dir, v1, n] = filepathJoin [dir, v2, n]) : v1 = v2 := by
  have hd := congrArg String.data h
  rw [filepathJoin_three dir v1 n h1 hn, filepathJoin_three dir v2 n h2 hn,
    List.append_assoc, List.append_assoc] at hd
  have hd2 := List.append_cancel_left hd
  have hd3 : v1.data = v2.data := List.append_cancel_right hd2
  exact String.ext hd3

theorem engineFile_data (engine b : String) :
    (Sprintf "prisma-%s-%s" [engine, b]).data
      = "prisma-".data ++ engine.data ++ '-' :: b.data := by
  simp [Sprintf, sprintfChars, sprintfTail]

theorem engineFile_proper (engine b : String) (he : '/' ∉ engine.data) (hb : '/' ∉ b.data) :
    properElem (Sprintf "prisma-%s-%s" [engine, b]).data := by
  rw [engineFile_data]
  refine ⟨by simp, ?_, by simp, by simp⟩
  intro hmem
  simp only [List.mem_append, List.mem_cons] at hmem
  rcases hmem with (hmem | hmem) | hmem | hmem
  · revert hmem
    decide
  · exact he hmem
  · revert hmem
    decide
  · exact hb hmem

/-- C7, as the claim states it, fails: for the query engine the version argument
is not used, so two versions give one path; and for a platform name with a
slash and `..` elements the version is cleaned away also for the schema
engine. -/
theorem GetEnginePathWithVersion_query_ignores_version :
    "v1" ≠ "v2"
    ∧ GetEnginePathWithVersion exampleHost shipped "/cache" QueryEngineName "darwin" "v1"
      = GetEnginePathWithVersion exampleHost shipped "/cache" QueryEngineName "darwin" "v2"
    ∧ GetEnginePathWithVersion exampleHost shipped "/cache" SchemaEngineName "x/../.." "v1"
      = GetEnginePathWithVersion exampleHost shipped "/cache" SchemaEngineName "x/../.." "v2" := by
  decide

/-- C7, amended: for the schema engine, on a host whose `CheckForExtension`
maps distinct paths to distinct paths, for every base directory, every platform
name without a slash and every two distinct versions that are proper path
elements (not empty, without a slash, neither "." nor ".."),
`GetEnginePathWithVersion` returns distinct paths; the same holds for
`getEnginePath` with any file name that is a proper path element. For the
query engine the version argument is not used: the path is the one of
`GetEnginePath`, under the configured `QueryEngineVersion`. -/
theorem GetEnginePathWithVersion_segregates (pf : Platform) (cfg : Config)
    (dir b v1 v2 : String)
    (hinj : Function.Injective (pf.CheckForExtension b))
    (hb : '/' ∉ b.data)
    (h1 : v1 ≠ "" ∧ '/' ∉ v1.data ∧ v1 ≠ "." ∧ v1 ≠ "..")
    (h2 : v2 ≠ "" ∧ '/' ∉ v2.data ∧ v2 ≠ "." ∧ v2 ≠ "..")
    (hne : v1 ≠ v2) :
    GetEnginePathWithVersion pf cfg dir SchemaEngineName b v1
        ≠ GetEnginePathWithVersion pf cfg dir SchemaEngineName b v2
    ∧ (∀ n : String, properElem n.data → getEnginePath dir v1 n ≠ getEnginePath dir v2 n)
    ∧ GetEnginePathWithVersion pf cfg dir QueryEngineName b v1
        = GetEnginePath pf cfg dir QueryEngineName b
    ∧ GetEnginePathWithVersion pf cfg dir QueryEngineName b v2
        = GetEnginePath pf cfg dir QueryEngineName b := by
  have hp : ∀ v : String, (v ≠ "" ∧ '/' ∉ v.data ∧ v ≠ "." ∧ v ≠ "..") → properElem v.data := by
    intro v hv
    refine ⟨fun e => hv.1 (String.ext e), hv.2.1, fun e => hv.2.2.1 (String.ext e),
      fun e => hv.2.2.2 (String.ext e)⟩
  have hqs : QueryEngineName ≠ SchemaEngineName := by decide
  refine ⟨?_, ?_, ?_, ?_⟩
  · intro h
    simp only [GetEnginePathWithVersion, if_true, filepathToSlash] at h
    exact hne (filepathJoin_version_inj dir v1 v2 _ (hp v1 h1) (hp v2 h2)
      (engineFile_proper SchemaEngineName b (by decide) hb) (hinj h))
  · intro n hn h
    simp only [getEnginePath, filepathToSlash] at h
    exact hne (filepathJoin_version_inj dir v1 v2 n (hp v1 h1) (hp v2 h2) hn h)
  · simp [GetEnginePathWithVersion, GetEnginePath, hqs]
  · simp [GetEnginePathWithVersion, GetEnginePath, hqs]

/-- Two versions of the schema engine for "darwin" under "/cache". -/
theorem GetEnginePathWithVersion_segregates_witness :
    GetEnginePathWithVersion exampleHost shipped "/cache" SchemaEngineName "darwin" "v1"
      ≠ GetEnginePathWithVersion exampleHost shipped "/cache" SchemaEngineName "darwin" "v2" :=
  (GetEnginePathWithVersion_segregates exampleHost shipped "/cache" "darwin" "v1" "v2"
    (fun _ _ h => h) (by decide) (by decide) (by decide) (by decide)).1

/-! ## The engine paths of one host are apart -/

theorem last_element_eq (a1 a2 n1 n2 : List Char) (h1 : '/' ∉ n1) (h2 : '/' ∉ n2)
    (h : a1 ++ '/' :: n1 = a2 ++ '/' :: n2) : n1 = n2 := by
  have hs := congrArg (fun l => (splitSlash l).getLast?) h
  simpa [splitSlash_append, splitSlash_noslash n1 h1, splitSlash_noslash n2 h2] using hs

/-- On a host whose `CheckForExtension` appends a fixed extension without a
slash, with a platform name without a slash and versions that are proper path
elements, the cache paths of the two engines are distinct and the one of the
schema engine is not the temporary sibling of the one of the query engine, and
conversely: the separation `FetchNative_second_run_cached` asks for. -/
theorem enginePaths_separated (pf : Platform) (cfg : Config) (dir ext : String)
    (hcfe : ∀ p, pf.CheckForExtension pf.BinaryPlatformName p = p ++ ext)
    (hb : '/' ∉ pf.BinaryPlatformName.data) (hext : '/' ∉ ext.data)
    (hq : properElem cfg.QueryEngineVersion.data)
    (hs : properElem cfg.SchemaEngineVersion.data) :
    ∀ e1 ∈ Engines, ∀ e2 ∈ Engines, e1 ≠ e2 →
      enginePath pf cfg dir e2 ≠ enginePath pf cfg dir e1
      ∧ enginePath pf cfg dir e2 ≠ enginePath pf cfg dir e1 ++ ".tmp" := by
  have hqs : QueryEngineName ≠ SchemaEngineName := by decide
  have hnq := engineFile_proper QueryEngineName pf.BinaryPlatformName (by decide) hb
  have hns := engineFile_proper SchemaEngineName pf.BinaryPlatformName (by decide) hb
  have hpq : (enginePath pf cfg dir (Engine.mk QueryEngineName "PRISMA_QUERY_ENGINE_BINARY")).data
      = (joinLead dir ++ cfg.QueryEngineVersion.data) ++ '/' ::
          ("prisma-query-engine-".data ++ pf.BinaryPlatformName.data ++ ext.data) := by
    simp only [enginePath, GetEnginePath, hqs, if_false, if_true, hcfe, filepathToSlash,
      String.data_append, filepathJoin_three dir _ _ hq hnq, engineFile_data]
    simp [QueryEngineName]
  have hps : (enginePath pf cfg dir
        (Engine.mk SchemaEngineName "PRISMA_INTROSPECTION_ENGINE_BINARY")).data
      = (joinLead dir ++ cfg.SchemaEngineVersion.data) ++ '/' ::
          ("prisma-schema-engine-".data ++ pf.BinaryPlatformName.data ++ ext.data) := by
    simp only [enginePath, GetEnginePath, if_true, hcfe, filepathToSlash,
      String.data_append, filepathJoin_three dir _ _ hs hns, engineFile_data]
    simp [SchemaEngineName]
  have hfree : ∀ (pre suf : List Char), '/' ∉ pre → '/' ∉ suf →
      '/' ∉ pre ++ pf.BinaryPlatformName.data ++ ext.data ++ suf := by
    intro pre suf h1 h2 hmem
    simp only [List.mem_append] at hmem
    rcases hmem with ((hmem | hmem) | hmem) | hmem
    · exact h1 hmem
    · exact hb hmem
    · exact hext hmem
    · exact h2 hmem
  have key : ∀ (a1 a2 suf1 suf2 : List Char), '/' ∉ suf1 → '/' ∉ suf2 →
      a1 ++ '/' :: ("prisma-schema-engine-".data ++ pf.BinaryPlatformName.data ++ ext.data ++ suf1)
        ≠ a2 ++ '/' ::
          ("prisma-query-engine-".data ++ pf.BinaryPlatformName.data ++ ext.data ++ suf2) := by
    intro a1 a2 suf1 suf2 h1 h2 h
    have := last_element_eq a1 a2 _ _ (hfree _ suf1 (by decide) h1) (hfree _ suf2 (by decide) h2) h
    simp at this
  intro e1 he1 e2 he2 hne
  simp only [Engines, List.mem_cons, List.mem_singleton, List.not_mem_nil, or_false] at he1 he2
  rcases he1 with rfl | rfl <;> rcases he2 with rfl | rfl
  · exact absurd rfl hne
  · constructor
    · intro h
      have hd := congrArg String.data h
      rw [hps, hpq] at hd
      exact key _ _ [] [] (by simp) (by simp) (by simpa using hd)
    · intro h
      have hd := congrArg String.data h
      rw [String.data_append, hps, hpq] at hd
      exact key _ _ [] ".tmp".data (by simp) (by decide) (by simpa using hd)
  · constructor
    · intro h
      have hd := congrArg String.data h
      rw [hps, hpq] at hd
      exact key _ _ [] [] (by simp) (by simp) (by simpa using hd.symm)
    · intro h
      have hd := congrArg String.data h
      rw [String.data_append, hps, hpq] at hd
      exact key _ _ ".tmp".data [] (by decide) (by simp) (by simpa using hd.symm)
  · exact absurd rfl hne

/-! ## The introspection channel -/

theorem Sprintf_introspect_error (msg : String) :
    Sprintf "introspect error: %s" [msg] = "introspect error: " ++ msg := by
  apply String.ext
  simp [Sprintf, sprintfChars, sprintfTail]

/-- C11: for every line `Pull` reads (the pipes, the write of the request and
the start of the engine having succeeded): when the line parses to an envelope
whose error field is set, `Pull` returns the empty data model and the error
with the message "introspect error: " followed by `error.data.message`
unchanged; when it parses to an envelope without error, `Pull` returns
`result.dataModel` unchanged and no error; when it does not parse, `Pull`
returns the empty data model and the error of the parser. -/
theorem Pull_response_line (os : PullOS) (schema data line : String)
    (hin : os.stdinPipe = none) (hm : os.marshal schema = Except.ok data)
    (hw : os.write (data ++ "\n") = none) (hout : os.stdoutPipe = none)
    (hst : os.start = none) (hread : os.readString = (line, none)) :
    (∀ resp e, os.unmarshal line = Except.ok resp → resp.Error = some e →
        IntrospectEngine.Pull os schema
          = ("", some (GoError.errorString ("introspect error: " ++ e.Data.Message)))
        ∧ ((IntrospectEngine.Pull os schema).2.map GoError.Error
          = some ("introspect error: " ++ e.Data.Message)))
    ∧ (∀ resp, os.unmarshal line = Except.ok resp → resp.Error = none →
        IntrospectEngine.Pull os schema = (resp.Result.DataModel, none))
    ∧ (∀ err, os.unmarshal line = Except.error err →
        IntrospectEngine.Pull os schema = ("", some err)) := by
  refine ⟨?_, ?_, ?_⟩
  · intro resp e hu he
    simp [IntrospectEngine.Pull, hin, hm, hw, hout, hst, hread, hu, he,
      Sprintf_introspect_error, GoError.Error]
  · intro resp hu he
    simp [IntrospectEngine.Pull, hin, hm, hw, hout, hst, hread, hu, he]
  · intro err hu
    simp [IntrospectEngine.Pull, hin, hm, hw, hout, hst, hread, hu]

/-- An engine answering with an error envelope, with a result, and with a line
that is not JSON. -/
theorem Pull_response_line_witness :
    IntrospectEngine.Pull (answering "err:P1001 %s unreachable") "datasource db"
      = ("", some (GoError.errorString "introspect error: P1001 %s unreachable"))
    ∧ IntrospectEngine.Pull (answering "ok:model User") "datasource db" = ("model User", none)
    ∧ IntrospectEngine.Pull (answering "<html>") "datasource db"
      = ("", some (GoError.errorString "invalid character")) :=
  ⟨((Pull_response_line (answering "err:P1001 %s unreachable") "datasource db" "datasource db"
      "err:P1001 %s unreachable" rfl rfl rfl rfl rfl rfl).1
      (IntrospectResponse.mk (IntrospectResult.mk "")
        (some (IntrospectError.mk (IntrospectErrorData.mk "P1001 %s unreachable"))))
      (IntrospectError.mk (IntrospectErrorData.mk "P1001 %s unreachable"))
      rfl rfl).1,
   (Pull_response_line (answering "ok:model User") "datasource db" "datasource db"
      "ok:model User" rfl rfl rfl rfl rfl rfl).2.1
      (IntrospectResponse.mk (IntrospectResult.mk "model User") none) rfl rfl,
   (Pull_response_line (answering "<html>") "datasource db" "datasource db"
      "<html>" rfl rfl rfl rfl rfl rfl).2.2
      (GoError.errorString "invalid character") rfl⟩

/-! ## The path of the introspection engine -/

theorem DownloadEngine_frame (pf : Platform) (cfg : Config) (os : OS) (fs : FS) (e : Engine)
    (toDir p : String) (h1 : p ≠ enginePath pf cfg toDir e)
    (h2 : p ≠ enginePath pf cfg toDir e ++ ".tmp") :
    (DownloadEngine pf cfg os fs e.Name toDir).fs p = fs p := by
  unfold enginePath at h1 h2
  unfold DownloadEngine
  simp only []
  split
  · rfl
  · split
    · exact (download_spec os fs _ _).1 p h1 h2
    · exact (download_spec os fs _ _).1 p h1 h2

theorem fetchEngines_frame (pf : Platform) (cfg : Config) (os : OS) (toDir p : String)
    (engines : List Engine)
    (h : ∀ e ∈ engines, p ≠ enginePath pf cfg toDir e ∧ p ≠ enginePath pf cfg toDir e ++ ".tmp") :
    ∀ fs : FS, (fetchEngines pf cfg os toDir engines fs).fs p = fs p := by
  induction engines with
  | nil => intro fs; rfl
  | cons e rest ih =>
    intro fs
    have he := h e (List.mem_cons_self e rest)
    have h1 := DownloadEngine_frame pf cfg os fs e toDir p he.1 he.2
    have ih2 := ih (fun e2 he2 => h e2 (List.mem_cons_of_mem e he2))
    unfold fetchEngines
    simp only []
    split
    · exact h1
    · rw [ih2, h1]

theorem FetchNative_frame (pf : Platform) (cfg : Config) (os : OS) (fs : FS) (dir p : String)
    (h : ∀ e ∈ Engines, p ≠ enginePath pf cfg dir e ∧ p ≠ enginePath pf cfg dir e ++ ".tmp") :
    (FetchNative pf cfg os fs dir).fs p = fs p := by
  unfold FetchNative
  split
  · rfl
  · split
    · rfl
    · exact fetchEngines_frame pf cfg os dir p Engines h fs

theorem last_element_ne (a1 a2 n1 n2 : List Char) (h1 : '/' ∉ n1) (h2 : '/' ∉ n2)
    (hne : n1 ≠ n2) : a1 ++ '/' :: n1 ≠ a2 ++ '/' :: n2 :=
  fun h => hne (last_element_eq a1 a2 n1 n2 h1 h2 h)

/-- The characters `ensure` appends to the platform name on Windows. -/
theorem introspectionFile_data (pf : Platform) :
    ("prisma-introspection-engine-"
      ++ (if pf.Name = "windows" then Sprintf "%s.exe" [pf.BinaryPlatformName]
          else pf.BinaryPlatformName)).data
      = "prisma-introspection-engine-".data ++ pf.BinaryPlatformName.data
        ++ (if pf.Name = "windows" then ".exe".data else []) := by
  by_cases hw : pf.Name = "windows"
  · simp [hw, Sprintf, sprintfChars, sprintfTail]
  · simp [hw]

theorem globalPath_data (pf : Platform) (cfg : Config) (dir : String)
    (hb : '/' ∉ pf.BinaryPlatformName.data) (hq : properElem cfg.QueryEngineVersion.data) :
    (globalPath pf cfg dir).data
      = (joinLead dir ++ cfg.QueryEngineVersion.data) ++ '/' ::
          ("prisma-introspection-engine-".data ++ pf.BinaryPlatformName.data
            ++ (if pf.Name = "windows" then ".exe".data else [])) := by
  have hfree : '/' ∉ "prisma-introspection-engine-".data ++ pf.BinaryPlatformName.data
      ++ (if pf.Name = "windows" then ".exe".data else []) := by
    intro hmem
    simp only [List.mem_append] at hmem
    rcases hmem with (hmem | hmem) | hmem
    · revert hmem
      decide
    · exact hb hmem
    · split at hmem
      · revert hmem
        decide
      · cases hmem
  have hn : properElem ("prisma-introspection-engine-"
      ++ (if pf.Name = "windows" then Sprintf "%s.exe" [pf.BinaryPlatformName]
          else pf.BinaryPlatformName)).data := by
    rw [introspectionFile_data]
    exact ⟨by simp, hfree, by simp, by simp⟩
  unfold globalPath filepathToSlash
  rw [filepathJoin_three dir _ _ hq hn, introspectionFile_data]

theorem enginePath_query_data (pf : Platform) (cfg : Config) (dir ext : String)
    (hcfe : ∀ p, pf.CheckForExtension pf.BinaryPlatformName p = p ++ ext)
    (hb : '/' ∉ pf.BinaryPlatformName.data) (hq : properElem cfg.QueryEngineVersion.data) :
    (enginePath pf cfg dir (Engine.mk QueryEngineName "PRISMA_QUERY_ENGINE_BINARY")).data
      = (joinLead dir ++ cfg.QueryEngineVersion.data) ++ '/' ::
          ("prisma-query-engine-".data ++ pf.BinaryPlatformName.data ++ ext.data) := by
  have hqs : QueryEngineName ≠ SchemaEngineName := by decide
  have hnq := engineFile_proper QueryEngineName pf.BinaryPlatformName (by decide) hb
  simp only [enginePath, GetEnginePath, hqs, if_false, if_true, hcfe, filepathToSlash,
    String.data_append, filepathJoin_three dir _ _ hq hnq, engineFile_data]
  simp [QueryEngineName]

theorem enginePath_schema_data (pf : Platform) (cfg : Config) (dir ext : String)
    (hcfe : ∀ p, pf.CheckForExtension pf.BinaryPlatformName p = p ++ ext)
    (hb : '/' ∉ pf.BinaryPlatformName.data) (hs : properElem cfg.SchemaEngineVersion.data) :
    (enginePath pf cfg dir (Engine.mk SchemaEngineName "PRISMA_INTROSPECTION_ENGINE_BINARY")).data
      = (joinLead dir ++ cfg.SchemaEngineVersion.data) ++ '/' ::
          ("prisma-schema-engine-".data ++ pf.BinaryPlatformName.data ++ ext.data) := by
  have hns := engineFile_proper SchemaEngineName pf.BinaryPlatformName (by decide) hb
  simp only [enginePath, GetEnginePath, if_true, hcfe, filepathToSlash,
    String.data_append, filepathJoin_three dir _ _ hs hns, engineFile_data]
  simp [SchemaEngineName]

/-- The path `ensure` expects is neither the cache path of an engine nor the
temporary sibling of one. -/
theorem globalPath_apart (pf : Platform) (cfg : Config) (dir ext : String)
    (hcfe : ∀ p, pf.CheckForExtension pf.BinaryPlatformName p = p ++ ext)
    (hb : '/' ∉ pf.BinaryPlatformName.data) (hext : '/' ∉ ext.data)
    (hq : properElem cfg.QueryEngineVersion.data)
    (hs : properElem cfg.SchemaEngineVersion.data) :
    ∀ e ∈ Engines, globalPath pf cfg dir ≠ enginePath pf cfg dir e
      ∧ globalPath pf cfg dir ≠ enginePath pf cfg dir e ++ ".tmp" := by
  have hg := globalPath_data pf cfg dir hb hq
  have hpq := enginePath_query_data pf cfg dir ext hcfe hb hq
  have hps := enginePath_schema_data pf cfg dir ext hcfe hb hs
  have hgfree : '/' ∉ "prisma-introspection-engine-".data ++ pf.BinaryPlatformName.data
      ++ (if pf.Name = "windows" then ".exe".data else []) := by
    intro hmem
    simp only [List.mem_append] at hmem
    rcases hmem with (hmem | hmem) | hmem
    · revert hmem
      decide
    · exact hb hmem
    · split at hmem
      · revert hmem
        decide
      · cases hmem
  have hfree : ∀ (pre suf : List Char), '/' ∉ pre → '/' ∉ suf →
      '/' ∉ pre ++ pf.BinaryPlatformName.data ++ ext.data ++ suf := by
    intro pre suf h1 h2 hmem
    simp only [List.mem_append] at hmem
    rcases hmem with ((hmem | hmem) | hmem) | hmem
    · exact h1 hmem
    · exact hb hmem
    · exact hext hmem
    · exact h2 hmem
  have keyq : ∀ (a1 a2 suf : List Char), '/' ∉ suf →
      a1 ++ '/' :: ("prisma-introspection-engine-".data ++ pf.BinaryPlatformName.data
          ++ (if pf.Name = "windows" then ".exe".data else []))
        ≠ a2 ++ '/' ::
          ("prisma-query-engine-".data ++ pf.BinaryPlatformName.data ++ ext.data ++ suf) := by
    intro a1 a2 suf h2
    exact last_element_ne a1 a2 _ _ hgfree (hfree _ suf (by decide) h2) (by simp)
  have keys : ∀ (a1 a2 suf : List Char), '/' ∉ suf →
      a1 ++ '/' :: ("prisma-introspection-engine-".data ++ pf.BinaryPlatformName.data
          ++ (if pf.Name = "windows" then ".exe".data else []))
        ≠ a2 ++ '/' ::
          ("prisma-schema-engine-".data ++ pf.BinaryPlatformName.data ++ ext.data ++ suf) := by
    intro a1 a2 suf h2
    exact last_element_ne a1 a2 _ _ hgfree (hfree _ suf (by decide) h2) (by simp)
  intro e he
  simp only [Engines, List.mem_cons, List.mem_singleton, List.not_mem_nil, or_false] at he
  rcases he with rfl | rfl
  · constructor
    · intro h
      have hd := congrArg String.data h
      rw [hg, hpq] at hd
      exact keyq (joinLead dir ++ cfg.QueryEngineVersion.data)
        (joinLead dir ++ cfg.QueryEngineVersion.data) [] (by simp)
        (by rw [hd, List.append_nil])
    · intro h
      have hd := congrArg String.data h
      rw [String.data_append, hg, hpq] at hd
      exact keyq (joinLead dir ++ cfg.QueryEngineVersion.data)
        (joinLead dir ++ cfg.QueryEngineVersion.data) ".tmp".data (by decide)
        (by rw [hd]; simp only [List.append_assoc, List.cons_append])
  · constructor
    · intro h
      have hd := congrArg String.data h
      rw [hg, hps] at hd
      exact keys (joinLead dir ++ cfg.QueryEngineVersion.data)
        (joinLead dir ++ cfg.SchemaEngineVersion.data) [] (by simp)
        (by rw [hd, List.append_nil])
    · intro h
      have hd := congrArg String.data h
      rw [String.data_append, hg, hps] at hd
      exact keys (joinLead dir ++ cfg.QueryEngineVersion.data)
        (joinLead dir ++ cfg.SchemaEngineVersion.data) ".tmp".data (by decide)
        (by rw [hd]; simp only [List.append_assoc, List.cons_append])

/-- C12: on a host whose `CheckForExtension` appends a fixed extension without a
slash, with a platform name without a slash and versions that are proper path
elements: for every cache directory the path `ensure` expects,
dir/QueryEngineVersion/prisma-introspection-engine-platform with ".exe" on
Windows, differs from `GetEnginePath` of every engine of `Engines`; and with
`PRISMA_INTROSPECTION_ENGINE_BINARY` unset and that path absent from the cache,
`ensure` returns the error "no binary found " whenever its `FetchNative`
succeeds. -/
theorem ensure_no_binary_found (pf : Platform) (cfg : Config) (ext : String)
    (hcfe : ∀ p, pf.CheckForExtension pf.BinaryPlatformName p = p ++ ext)
    (hb : '/' ∉ pf.BinaryPlatformName.data) (hext : '/' ∉ ext.data)
    (hq : properElem cfg.QueryEngineVersion.data)
    (hs : properElem cfg.SchemaEngineVersion.data) :
    (∀ dir, ∀ e ∈ Engines,
        globalPath pf cfg dir ≠ GetEnginePath pf cfg dir e.Name pf.BinaryPlatformName)
    ∧ (∀ (os : OS) (getenv : String → String) (cache : String) (fs : FS),
        getenv "PRISMA_INTROSPECTION_ENGINE_BINARY" = "" →
        fs (globalPath pf cfg (GlobalCacheDir cfg cache)) = none →
        (FetchNative pf cfg os fs (GlobalCacheDir cfg cache)).val = none →
        (IntrospectEngine.ensure pf cfg os getenv cache fs).val
          = ("", some (GoError.errorString "no binary found "))) := by
  constructor
  · intro dir e he
    exact (globalPath_apart pf cfg dir ext hcfe hb hext hq hs e he).1
  · intro os getenv cache fs henv hmiss hok
    have hframe := FetchNative_frame pf cfg os fs (GlobalCacheDir cfg cache)
      (globalPath pf cfg (GlobalCacheDir cfg cache))
      (globalPath_apart pf cfg (GlobalCacheDir cfg cache) ext hcfe hb hext hq hs)
    rw [hmiss] at hframe
    unfold globalPath at hframe
    simp [IntrospectEngine.ensure, hok, henv, osStat, hframe]

/-- On a Debian host with the shipped versions, an empty cache and a mirror that
serves both engines, `FetchNative` succeeds and `ensure` finds no binary. -/
theorem ensure_no_binary_found_witness :
    (FetchNative exampleHost shipped (mirror [1, 2, 3]) emptyFS
        (GlobalCacheDir shipped "/home/u/.cache")).val = none
    ∧ (IntrospectEngine.ensure exampleHost shipped (mirror [1, 2, 3]) (overrideEnv "")
        "/home/u/.cache" emptyFS).val = ("", some (GoError.errorString "no binary found ")) :=
  ⟨by decide,
   (ensure_no_binary_found exampleHost shipped "" (fun p => by
        apply String.ext
        simp [exampleHost])
      (by decide) (by decide) ⟨by decide, by decide, by decide, by decide⟩
      ⟨by decide, by decide, by decide, by decide⟩).2
      (mirror [1, 2, 3]) (overrideEnv "") "/home/u/.cache" emptyFS
      (by decide) (by decide) (by decide)⟩

end PrismaClientGo
